import Mathlib

/-!
Shallow embedding of the jsonrepair Go library (package `jsonrepair`).

Source files embedded (current versions, as referenced by the claims):
* `src/unnamed/part_004` : `Repair` and the recursive-descent parser family.
* `src/unnamed/part_000` (first section) : utilities and the file-path
  classifier (`prevNonWhitespaceIndex` .. `analyzePotentialFilePath`).
* `src/unnamed/part_002` / `src/const.go` : character-code constants.
* `src/errors.go` (second section) : `JSONRepairError` with six error kinds.

Modelling conventions:
* Go `[]rune` (the immutable input) is `List Char`; rune indices are `Nat`.
* Go `string` / `strings.Builder` values (the output buffer and every string
  the utilities manipulate) are modelled at the byte level as `GoStr :=
  List UInt8`, because the Go string functions used by the source
  (`strings.HasSuffix`, `strings.LastIndex`, slicing `s[:n]`, `Builder.Len`)
  operate on UTF-8 bytes, not runes.  `Builder.WriteRune` UTF-8-encodes.
* Go functions that mutate `*int` / `*strings.Builder` through pointers are
  state-passing functions returning the new `(i, output)`.
* The mutually recursive parser family is indexed by fuel (`Nat`); `Res α`
  has an explicit out-of-fuel constructor.  Errors carry the state `(i,
  output)` visible to the caller at the moment of the error, because Go
  callers that ignore a returned error keep using the mutated state.
* Go loops that only scan forward are written as structural recursion over
  a suffix of the input or an explicit countdown, so everything in this
  file evaluates by kernel reduction.
-/

namespace JsonRepair

/-- Go string / strings.Builder contents, as the UTF-8 byte sequence. -/
abbrev GoStr := List UInt8

/-- UTF-8 encoding of one rune, as written by Go's `WriteRune`. -/
def encodeChar (c : Char) : GoStr := String.utf8EncodeChar c

/-- UTF-8 encoding of a rune sequence (Go `string(runes)` / `WriteString`). -/
def encodeStr : List Char → GoStr
  | [] => []
  | c :: cs => encodeChar c ++ encodeStr cs

/-- Abbreviation turning a Lean string literal into its Go byte string. -/
def gs (s : String) : GoStr := encodeStr s.toList

/-- Go `text[start:stop]` on a rune slice (used as `string((*text)[a:b])`). -/
def runeSlice (text : List Char) (start stop : Nat) : List Char :=
  (text.take stop).drop start

/-- Go `len(text) - i` style bounds are written with `text.length` directly;
rune access `(*text)[i]` is `charAt text i` (out of range is never reached
by the embedded code, the default is arbitrary). -/
def charAt (text : List Char) (i : Nat) : Char := text.getD i (Char.ofNat 0)

/-- Byte access `s[i]` on a Go string. -/
def byteAt (s : GoStr) (i : Nat) : UInt8 := s.getD i 0

/-! ## Character-code constants (src/const.go) -/

def codeBackslash : Char := Char.ofNat 0x5c
def codeSlash : Char := Char.ofNat 0x2f
def codeAsterisk : Char := Char.ofNat 0x2a
def codeOpeningBrace : Char := Char.ofNat 0x7b
def codeClosingBrace : Char := Char.ofNat 0x7d
def codeOpeningBracket : Char := Char.ofNat 0x5b
def codeClosingBracket : Char := Char.ofNat 0x5d
def codeOpenParenthesis : Char := Char.ofNat 0x28
def codeCloseParenthesis : Char := Char.ofNat 0x29
def codeSpace : Char := Char.ofNat 0x20
def codeNewline : Char := Char.ofNat 0xa
def codeTab : Char := Char.ofNat 0x9
def codeReturn : Char := Char.ofNat 0xd
def codeBackspace : Char := Char.ofNat 0x08
def codeFormFeed : Char := Char.ofNat 0x0c
def codeDoubleQuote : Char := Char.ofNat 0x22
def codePlus : Char := Char.ofNat 0x2b
def codeMinus : Char := Char.ofNat 0x2d
def codeQuote : Char := Char.ofNat 0x27
def codeZero : Char := Char.ofNat 0x30
def codeNine : Char := Char.ofNat 0x39
def codeComma : Char := Char.ofNat 0x2c
def codeDot : Char := Char.ofNat 0x2e
def codeColon : Char := Char.ofNat 0x3a
def codeSemicolon : Char := Char.ofNat 0x3b
def codeUppercaseA : Char := Char.ofNat 0x41
def codeLowercaseA : Char := Char.ofNat 0x61
def codeUppercaseE : Char := Char.ofNat 0x45
def codeLowercaseE : Char := Char.ofNat 0x65
def codeUppercaseF : Char := Char.ofNat 0x46
def codeLowercaseF : Char := Char.ofNat 0x66
def codeNonBreakingSpace : Char := Char.ofNat 0xa0
def codeEnQuad : Char := Char.ofNat 0x2000
def codeHairSpace : Char := Char.ofNat 0x200a
def codeNarrowNoBreakSpace : Char := Char.ofNat 0x202f
def codeMediumMathematicalSpace : Char := Char.ofNat 0x205f
def codeIdeographicSpace : Char := Char.ofNat 0x3000
def codeDoubleQuoteLeft : Char := Char.ofNat 0x201c
def codeDoubleQuoteRight : Char := Char.ofNat 0x201d
def codeQuoteLeft : Char := Char.ofNat 0x2018
def codeQuoteRight : Char := Char.ofNat 0x2019
def codeGraveAccent : Char := Char.ofNat 0x60
def codeAcuteAccent : Char := Char.ofNat 0xb4

/-- controlCharacters: map from control rune to its JSON escape sequence. -/
def controlCharacters (c : Char) : Option GoStr :=
  if c = codeBackspace then some (gs ("\\b"))
  else if c = codeFormFeed then some (gs ("\\f"))
  else if c = codeNewline then some (gs ("\\n"))
  else if c = codeReturn then some (gs ("\\r"))
  else if c = codeTab then some (gs ("\\t"))
  else none

/-- escapeCharacters: membership test for the JSON escape target runes. -/
def escapeCharactersContains (c : Char) : Bool :=
  c = codeDoubleQuote || c = codeBackslash || c = codeSlash ||
  c = Char.ofNat 0x62 || c = Char.ofNat 0x66 || c = Char.ofNat 0x6e ||
  c = Char.ofNat 0x72 || c = Char.ofNat 0x74

/-! ## Classification predicates (src/unnamed/part_000, first section) -/

def isHex (code : Char) : Bool :=
  (codeZero ≤ code && code ≤ codeNine) ||
  (codeUppercaseA ≤ code && code ≤ codeUppercaseF) ||
  (codeLowercaseA ≤ code && code ≤ codeLowercaseF)

def isDigit (code : Char) : Bool := codeZero ≤ code && code ≤ codeNine

/-- isValidStringCharacter: valid characters are those >= U+0020. -/
def isValidStringCharacter (char : Char) : Bool := Char.ofNat 0x0020 ≤ char

def isDelimiter (char : Char) : Bool :=
  char = ',' || char = ':' || char = '[' || char = ']' || char = '/' ||
  char = codeOpeningBrace || char = codeClosingBrace ||
  char = '(' || char = ')' || char = codeNewline || char = '+'

def isQuoteAux1 (code : Char) : Bool :=
  code = codeDoubleQuote || code = codeDoubleQuoteLeft ||
  code = codeDoubleQuoteRight

/-- isDoubleQuoteLike. -/
def isDoubleQuoteLike (code : Char) : Bool := isQuoteAux1 code

def isDoubleQuote (code : Char) : Bool := code = codeDoubleQuote

def isSingleQuoteLike (code : Char) : Bool :=
  code = codeQuote || code = codeQuoteLeft || code = codeQuoteRight ||
  code = codeGraveAccent || code = codeAcuteAccent

def isSingleQuote (code : Char) : Bool := code = codeQuote

def isQuote (code : Char) : Bool :=
  isDoubleQuoteLike code || isSingleQuoteLike code

def isStartOfValue (char : Char) : Bool :=
  char = codeOpeningBrace || char = '[' || char = '_' || char = '-' ||
  (Char.ofNat 0x61 ≤ char && char ≤ Char.ofNat 0x7a) ||
  (Char.ofNat 0x41 ≤ char && char ≤ Char.ofNat 0x5a) ||
  (Char.ofNat 0x30 ≤ char && char ≤ Char.ofNat 0x39) ||
  isQuote char

def isControlCharacter (code : Char) : Bool :=
  code = codeNewline || code = codeReturn || code = codeTab ||
  code = codeBackspace || code = codeFormFeed

def isWhitespace (code : Char) : Bool :=
  code = codeSpace || code = codeNewline || code = codeTab ||
  code = codeReturn

def isSpecialWhitespace (code : Char) : Bool :=
  code = codeNonBreakingSpace ||
  (codeEnQuad ≤ code && code ≤ codeHairSpace) ||
  code = codeNarrowNoBreakSpace ||
  code = codeMediumMathematicalSpace ||
  code = codeIdeographicSpace

def isFunctionNameCharStart (code : Char) : Bool :=
  (Char.ofNat 0x61 ≤ code && code ≤ Char.ofNat 0x7a) ||
  (Char.ofNat 0x41 ≤ code && code ≤ Char.ofNat 0x5a) ||
  code = '_' || code = Char.ofNat 0x24

def isFunctionNameChar (code : Char) : Bool :=
  isFunctionNameCharStart code || isDigit code

/-- isUnquotedStringDelimiter: like isDelimiter but without a colon and
without parentheses. -/
def isUnquotedStringDelimiter (char : Char) : Bool :=
  char = ',' || char = '[' || char = ']' || char = '/' ||
  char = codeOpeningBrace || char = codeClosingBrace ||
  char = codeNewline || char = '+'

def isWhitespaceExceptNewline (code : Char) : Bool :=
  code = codeSpace || code = codeTab || code = codeReturn

def isURLChar (code : Char) : Bool :=
  (Char.ofNat 0x41 ≤ code && code ≤ Char.ofNat 0x5a) ||
  (Char.ofNat 0x61 ≤ code && code ≤ Char.ofNat 0x7a) ||
  (Char.ofNat 0x30 ≤ code && code ≤ Char.ofNat 0x39) ||
  code = '-' || code = '.' || code = '_' || code = Char.ofNat 0x7e ||
  code = ':' || code = '/' || code = Char.ofNat 0x3f ||
  code = Char.ofNat 0x23 || code = Char.ofNat 0x40 ||
  code = Char.ofNat 0x21 || code = Char.ofNat 0x24 ||
  code = Char.ofNat 0x26 || code = codeQuote || code = '(' || code = ')' ||
  code = codeAsterisk || code = '+' || code = codeSemicolon ||
  code = Char.ofNat 0x3d

/-- Byte-level whitespace test; on the output buffer Go casts the byte to a
rune (`isWhitespace(rune(s[i]))`), and the four whitespace runes are
single-byte, so this is exact. -/
def isWhitespaceByte (b : UInt8) : Bool :=
  b = 0x20 || b = 0x0a || b = 0x09 || b = 0x0d

/-! ## Go string functions on byte strings -/

/-- Go `strings.HasSuffix`. -/
def goHasSuffix (s suffix : GoStr) : Bool := List.isSuffixOf suffix s

/-- Go `strings.HasPrefix` / `bytes.HasPrefix`-style test. -/
def goStartsWith (s pre : GoStr) : Bool := List.isPrefixOf pre s

/-- Whether `sub` occurs in `s` starting at position `k`. -/
def goMatchAt (s sub : GoStr) (k : Nat) : Bool := goStartsWith (s.drop k) sub

/-- Countdown worker for `goLastIndex`, scanning candidate positions from
`k` down to 0. -/
def goLastIndexAux (s sub : GoStr) : Nat → Int
  | 0 => if goMatchAt s sub 0 then 0 else -1
  | (k+1) => if goMatchAt s sub (k+1) then Int.ofNat (k+1)
             else goLastIndexAux s sub k

/-- Go `strings.LastIndex`. -/
def goLastIndex (s sub : GoStr) : Int :=
  if sub.length ≤ s.length then goLastIndexAux s sub (s.length - sub.length)
  else -1

/-- Ascending worker for `goIndex`: first match at or after position `k`,
where `left` is the number of candidate positions still to try. -/
def goIndexAux (s sub : GoStr) : Nat → Nat → Int
  | 0, k => if goMatchAt s sub k then Int.ofNat k else -1
  | (left+1), k => if goMatchAt s sub k then Int.ofNat k
                   else goIndexAux s sub left (k+1)

/-- Go `strings.Index`. -/
def goIndex (s sub : GoStr) : Int :=
  if sub.length ≤ s.length then goIndexAux s sub (s.length - sub.length) 0
  else -1

/-- Go `strings.Contains`. -/
def goContains (s sub : GoStr) : Bool := goIndex s sub ≥ 0

/-- Structural worker for `goCount`; the countdown starts at `s.length`
and each step removes at least one byte from `s` (the pattern is
nonempty), so the zero case is never reached. -/
def goCountAux : Nat → GoStr → GoStr → Nat
  | 0, _, _ => 0
  | (_+1), [], _ => 0
  | (k+1), (b :: bs), sub =>
    if goStartsWith (b :: bs) sub then
      1 + goCountAux k ((b :: bs).drop sub.length) sub
    else goCountAux k bs sub

/-- Go `strings.Count` for a nonempty pattern (counts non-overlapping
occurrences; only used with single-byte patterns by the source). -/
def goCount (s sub : GoStr) : Nat :=
  match sub with
  | [] => 0
  | _ => goCountAux s.length s sub

/-- Structural worker for `goReplaceAll` (same countdown argument as
`goCountAux`). -/
def goReplaceAllAux : Nat → GoStr → GoStr → GoStr → GoStr
  | 0, s, _, _ => s
  | (_+1), [], _, _ => []
  | (k+1), (b :: bs), sub, rep =>
    if goStartsWith (b :: bs) sub then
      rep ++ goReplaceAllAux k ((b :: bs).drop sub.length) sub rep
    else b :: goReplaceAllAux k bs sub rep

/-- Go `strings.ReplaceAll`. -/
def goReplaceAll (s sub rep : GoStr) : GoStr :=
  match sub with
  | [] => s
  | _ => goReplaceAllAux s.length s sub rep

/-- Structural worker for `goSplit` (same countdown argument as
`goCountAux`). -/
def goSplitAux : Nat → GoStr → GoStr → List GoStr
  | 0, s, _ => [s]
  | (_+1), [], _ => [[]]
  | (k+1), (b :: bs), sep =>
    if goStartsWith (b :: bs) sep then
      [] :: goSplitAux k ((b :: bs).drop sep.length) sep
    else
      match goSplitAux k bs sep with
      | [] => [[b]]
      | (p :: ps) => (b :: p) :: ps

/-- Go `strings.Split` by a nonempty separator. -/
def goSplit (s sep : GoStr) : List GoStr :=
  match sep with
  | [] => s.map (fun b => [b])
  | _ => goSplitAux s.length s sep

/-- Byte-level ASCII lower-casing, modelling `strings.ToLower` for the
inputs the classifier compares against its ASCII pattern tables
(multi-byte runes consist of bytes ≥ 0x80 and are left unchanged). -/
def goToLower (s : GoStr) : GoStr :=
  s.map (fun b => if 0x41 ≤ b && b ≤ 0x5a then b + 0x20 else b)

/-- Byte-level `strings.TrimSpace` (ASCII whitespace; the call sites trim
output-buffer text whose boundary whitespace is ASCII). -/
def goTrimSpace (s : GoStr) : GoStr :=
  let ws := fun b : UInt8 =>
    b = 0x20 || b = 0x09 || b = 0x0a || b = 0x0d || b = 0x0b || b = 0x0c
  ((s.dropWhile ws).reverse.dropWhile ws).reverse

/-! ## Utilities (src/unnamed/part_000, first section) -/

/-- Descending worker for `prevNonWhitespaceIndex`. -/
def prevNonWhitespaceAux (text : List Char) : Nat → Int
  | 0 => if !isWhitespace (charAt text 0) then 0 else -1
  | (j+1) => if !isWhitespace (charAt text (j+1)) then Int.ofNat (j+1)
             else prevNonWhitespaceAux text j

/-- prevNonWhitespaceIndex: index of the last non-whitespace rune at or
before `startIndex`, -1 if none. -/
def prevNonWhitespaceIndex (text : List Char) (startIndex : Int) : Int :=
  if startIndex < 0 then -1 else prevNonWhitespaceAux text startIndex.toNat

/-- atEndOfBlockComment. -/
def atEndOfBlockComment (text : List Char) (i : Nat) : Bool :=
  i + 1 < text.length && charAt text i = codeAsterisk &&
  charAt text (i+1) = codeSlash

/-- atEndOfNumber. -/
def atEndOfNumber (text : List Char) (i : Nat) : Bool :=
  i ≥ text.length || isDelimiter (charAt text i) ||
  isWhitespace (charAt text i)

/-- repairNumberEndingWithNumericSymbol: append the consumed token plus a
synthetic zero byte to the output. -/
def repairNumberEndingWithNumericSymbol (text : List Char) (start i : Nat)
    (output : GoStr) : GoStr :=
  output ++ encodeStr (runeSlice text start i) ++ [0x30]

/-- stripLastOccurrence. -/
def stripLastOccurrence (text textToStrip : GoStr)
    (stripRemainingText : Bool) : GoStr :=
  let index := goLastIndex text textToStrip
  if index = -1 then text
  else if stripRemainingText then text.take index.toNat
  else text.take index.toNat ++ text.drop (index.toNat + textToStrip.length)

/-- insertBeforeLastWhitespace: insert before the run of trailing
whitespace bytes (append when there is none). -/
def insertBeforeLastWhitespace (s textToInsert : GoStr) : GoStr :=
  let tc := (s.reverse.takeWhile isWhitespaceByte).length
  if tc = 0 then s ++ textToInsert
  else s.take (s.length - tc) ++ textToInsert ++ s.drop (s.length - tc)

/-- removeAtIndex. -/
def removeAtIndex (text : GoStr) (start count : Nat) : GoStr :=
  text.take start ++ text.drop (start + count)

/-- Byte is one of space, tab, carriage return. -/
def isSpaceTabReturnByte (b : UInt8) : Bool :=
  b = 0x20 || b = 0x09 || b = 0x0d

/-- endsWithCommaOrNewlineRe: the regex `"[ \t\r]*[,\n][ \t\r]*$`. -/
def endsWithCommaOrNewlineRe (text : GoStr) : Bool :=
  let r1 := text.reverse.dropWhile isSpaceTabReturnByte
  match r1 with
  | [] => false
  | b :: rest =>
    (b = 0x2c || b = 0x0a) &&
    (match rest.dropWhile isSpaceTabReturnByte with
     | [] => false
     | q :: _ => q = 0x22)

/-- endsWithCommaOrNewline: comma or newline before trailing space-like
bytes, with a regex double-check when the text (whitespace-trimmed) ends
with a double quote. -/
def endsWithCommaOrNewline (text : GoStr) : Bool :=
  if text.length = 0 then false
  else
    match text.reverse.dropWhile isSpaceTabReturnByte with
    | [] => false
    | b :: _ =>
      if b ≠ 0x2c && b ≠ 0x0a then false
      else
        let trimmed := goTrimSpace text
        if trimmed.length > 0 && byteAt trimmed (trimmed.length - 1) = 0x22
        then endsWithCommaOrNewlineRe text
        else true

/-! ## Regular-expression models (src/unnamed/part_000) -/

def isDigitByte (b : UInt8) : Bool := 0x30 ≤ b && b ≤ 0x39
def isUpperByte (b : UInt8) : Bool := 0x41 ≤ b && b ≤ 0x5a
def isLowerByte (b : UInt8) : Bool := 0x61 ≤ b && b ≤ 0x7a
def isAlphaByte (b : UInt8) : Bool := isUpperByte b || isLowerByte b
def isAlnumByte (b : UInt8) : Bool := isAlphaByte b || isDigitByte b
def isHexByte (b : UInt8) : Bool :=
  isDigitByte b || (0x41 ≤ b && b ≤ 0x46) || (0x61 ≤ b && b ≤ 0x66)

/-- leadingZeroRe: `^0\d`. -/
def leadingZeroRe (s : GoStr) : Bool :=
  match s with
  | b0 :: b1 :: _ => b0 = 0x30 && isDigitByte b1
  | _ => false

/-- driveLetterRe: `^[A-Za-z]:\\`. -/
def driveLetterRe (s : GoStr) : Bool :=
  match s with
  | a :: b :: c :: _ => isAlphaByte a && b = 0x3a && c = 0x5c
  | _ => false

/-- containsDriveRe: `[A-Za-z]:\\` anywhere. -/
def containsDriveRe : GoStr → Bool
  | a :: b :: c :: rest =>
    (isAlphaByte a && b = 0x3a && c = 0x5c) || containsDriveRe (b :: c :: rest)
  | _ => false

/-- base64Re: `^[A-Za-z0-9+/=]{20,}$`. -/
def base64Re (s : GoStr) : Bool :=
  s.length ≥ 20 &&
  s.all (fun b => isAlnumByte b || b = 0x2b || b = 0x2f || b = 0x3d)

/-- fileExtensionRe: `(?i)\.[a-z0-9]{2,5}(\?|$|\\|"|/)`.  A dot followed by
a run of n alphanumerics matches exactly when 2 ≤ n ≤ 5 and the run is
followed by one of `? \ " /` or the end of the string (shorter splits of a
longer run are impossible because the next character would be an
alphanumeric, which is none of the terminators). -/
def fileExtensionRe : GoStr → Bool
  | [] => false
  | b :: rest =>
    (b = 0x2e &&
      (let run := (rest.takeWhile isAlnumByte).length
       2 ≤ run && run ≤ 5 &&
       (match rest.drop run with
        | [] => true
        | t :: _ => t = 0x3f || t = 0x5c || t = 0x22 || t = 0x2f))) ||
    fileExtensionRe rest

/-- Whether `s` starts with a `\uXXXX` escape (6 bytes). -/
def startsWithUnicodeEscape (s : GoStr) : Bool :=
  match s with
  | a :: b :: h1 :: h2 :: h3 :: h4 :: _ =>
    a = 0x5c && b = 0x75 && isHexByte h1 && isHexByte h2 && isHexByte h3 &&
    isHexByte h4
  | _ => false

/-- Structural worker counting leftmost non-overlapping matches of
unicodeEscapeRe (countdown starts at the byte length). -/
def unicodeEscapeCountAux : Nat → GoStr → Nat
  | 0, _ => 0
  | (_+1), [] => 0
  | (k+1), (b :: rest) =>
    if startsWithUnicodeEscape (b :: rest) then
      1 + unicodeEscapeCountAux k ((b :: rest).drop 6)
    else unicodeEscapeCountAux k rest

/-- unicodeEscapeRe: `\\u[0-9a-fA-F]{4}`, used via FindAllString to count
matches. -/
def unicodeEscapeCount (s : GoStr) : Nat := unicodeEscapeCountAux s.length s

/-- urlEncodingRe: `%[0-9a-fA-F]{2}` (existence of a match). -/
def urlEncodingRe : GoStr → Bool
  | a :: b :: c :: rest =>
    (a = 0x25 && isHexByte b && isHexByte c) || urlEncodingRe (b :: c :: rest)
  | _ => false

/-- regexURLStart: `^(https?|ftp|mailto|file|data|irc)://` on a rune
slice. -/
def regexURLStart (s : List Char) : Bool :=
  let p := fun (t : String) => List.isPrefixOf t.toList s
  p ("https://") || p ("http://") || p ("ftp://") || p ("mailto://") ||
  p ("file://") || p ("data://") || p ("irc://")

/-! ## Path pattern tables (src/unnamed/part_000) -/

def windowsPathPatterns : List GoStr :=
  [gs ("program files"), gs ("system32"), gs ("windows\\"),
   gs ("programdata"), gs ("users\\"), gs ("documents"), gs ("desktop"),
   gs ("downloads"), gs ("music"), gs ("pictures"), gs ("videos"),
   gs ("appdata"), gs ("roaming"), gs ("public"), gs ("temp\\"),
   gs ("fonts"), gs ("startup"), gs ("sendto"), gs ("recent"),
   gs ("nethood"), gs ("cookies"), gs ("cache"), gs ("history"),
   gs ("favorites"), gs ("templates")]

def unixPathPatterns : List GoStr :=
  [gs ("/bin/"), gs ("/etc/"), gs ("/var/"), gs ("/usr/"), gs ("/opt/"),
   gs ("/home/"), gs ("/tmp/"), gs ("/lib/"), gs ("/lib64/"),
   gs ("/proc/"), gs ("/dev/"), gs ("/sys/"), gs ("/run/"), gs ("/srv/"),
   gs ("/mnt/"), gs ("/media/"), gs ("/boot/"), gs ("/snap/"),
   gs ("/usr/share/"), gs ("/usr/local/"), gs ("/usr/src/"),
   gs ("/var/log/"), gs ("/var/lib/"), gs ("/var/cache/"),
   gs ("/var/spool/"), gs ("/Applications/"), gs ("/Library/"),
   gs ("/System/"), gs ("/Users/")]

def commonFileExtensions : List GoStr :=
  [gs (".config"), gs (".cfg"), gs (".ini"), gs (".conf"),
   gs (".properties"), gs (".toml"), gs (".json"), gs (".xml"),
   gs (".yml"), gs (".yaml"), gs (".csv"), gs (".tsv"), gs (".backup"),
   gs (".bak"), gs (".old"), gs (".tmp"), gs (".temp"), gs (".swp"),
   gs (".~"), gs (".log"), gs (".out"), gs (".err"), gs (".debug"),
   gs (".trace"), gs (".db"), gs (".sqlite"), gs (".sqlite3"),
   gs (".mdb"), gs (".txt"), gs (".md"), gs (".readme"), gs (".doc"),
   gs (".docx"), gs (".pdf"), gs (".zip"), gs (".tar"), gs (".gz"),
   gs (".rar"), gs (".7z"), gs (".bz2"), gs (".xz"), gs (".js"),
   gs (".ts"), gs (".py"), gs (".go"), gs (".java"), gs (".cpp"),
   gs (".c"), gs (".h"), gs (".cs"), gs (".php"), gs (".rb"),
   gs (".rs"), gs (".mp3"), gs (".mp4"), gs (".jpg"), gs (".jpeg"),
   gs (".png"), gs (".gif"), gs (".bmp"), gs (".webp"), gs (".svg"),
   gs (".ico"), gs (".dat"), gs (".bin"), gs (".raw"), gs (".dump")]

/-! ## Early exclusion filters -/

/-- Overlapping count of two-byte escape sequences (`for` loop over byte
positions in `hasExcessiveEscapeSequences`). -/
def escapePairCount : GoStr → Nat
  | a :: b :: rest =>
    (if a = 0x5c && (b = 0x6e || b = 0x74 || b = 0x72 || b = 0x62 ||
        b = 0x66 || b = 0x22 || b = 0x5c) then 1 else 0) +
    escapePairCount (b :: rest)
  | _ => 0

/-- hasExcessiveEscapeSequences.  Go compares `float64` ratios against the
literals 0.6 and 0.3; for numerators and denominators of the sizes that
occur here the double-precision comparisons agree with the exact rational
comparisons written below. -/
def hasExcessiveEscapeSequences (content : GoStr) : Bool :=
  if content.length < 3 then false
  else
    let uCount := unicodeEscapeCount content
    if uCount ≥ 2 && 10 * (uCount * 6) > 6 * content.length then true
    else
      let escapeCount := escapePairCount content
      escapeCount > 0 && 10 * (escapeCount * 2) > 3 * content.length

/-- Counter for the title-case heuristic in `isLikelyTextBlob`: number of
lowercase letters seen after the first space. -/
def lowercaseAfterSpaceCount : GoStr → Bool → Nat
  | [], _ => 0
  | b :: rest, foundSpace =>
    if b = 0x20 then lowercaseAfterSpaceCount rest true
    else if foundSpace && isLowerByte b then
      1 + lowercaseAfterSpaceCount rest true
    else lowercaseAfterSpaceCount rest foundSpace

/-- isLikelyTextBlob. -/
def isLikelyTextBlob (content : GoStr) : Bool :=
  if content.length < 3 then false
  else if goContains content (gs ("  ")) then true
  else if goContains content (gs ("\n")) || goContains content (gs ("\t")) ||
          goContains content (gs ("\r")) then true
  else if goContains content (gs (". ")) || goContains content (gs ("! ")) ||
          goContains content (gs ("? ")) then true
  else
    let spaceCount := goCount content (gs (" "))
    if spaceCount > 5 then true
    else if content.length > 10 && isUpperByte (byteAt content 0) &&
            spaceCount > 2 then
      lowercaseAfterSpaceCount (content.drop 1) false ≥ 3
    else false

/-- isBase64String. -/
def isBase64String (content : GoStr) : Bool :=
  if content.length < 20 then false else base64Re content

/-- hasURLEncoding. -/
def hasURLEncoding (content : GoStr) : Bool := urlEncodingRe content

/-! ## Path format detection -/

/-- isWindowsAbsolutePath. -/
def isWindowsAbsolutePath (content : GoStr) : Bool :=
  driveLetterRe content || containsDriveRe content

/-- isUNCPath. -/
def isUNCPath (content : GoStr) : Bool :=
  if !goStartsWith content (gs ("\\\\")) ||
     goStartsWith content (gs ("\\\\\\\\")) then false
  else
    let parts := goSplit content (gs ("\\"))
    parts.length ≥ 4 && (parts.getD 2 []).length > 0 &&
    (parts.getD 3 []).length > 0

/-- isUnixAbsolutePath. -/
def isUnixAbsolutePath (content : GoStr) : Bool :=
  goStartsWith content (gs ("/")) || goStartsWith content (gs ("~/"))

/-- containsPathSeparator. -/
def containsPathSeparator (content : GoStr) : Bool :=
  goContains content (gs ("/")) || goContains content (gs ("\\"))

/-- countValidPathSegments. -/
def countValidPathSegments (content separator : GoStr) : Nat :=
  ((goSplit content separator).filter (fun part =>
    let part := goTrimSpace part
    part.length > 0 && part ≠ gs (".") && part ≠ gs (".."))).length

/-- Descending worker for `filepathExt`, inspecting position `j`. -/
def filepathExtAux (content : GoStr) : Nat → GoStr
  | 0 => if byteAt content 0 = 0x2f then [] else
         if byteAt content 0 = 0x2e then content.drop 0 else []
  | (j+1) =>
    if byteAt content (j+1) = 0x2f then []
    else if byteAt content (j+1) = 0x2e then content.drop (j+1)
    else filepathExtAux content j

/-- Go `path/filepath.Ext` (on Linux the path separator is `/`): the
suffix starting at the final dot of the final path element. -/
def filepathExt (content : GoStr) : GoStr :=
  match content.length with
  | 0 => []
  | (n+1) => filepathExtAux content n

/-- hasFileExtension. -/
def hasFileExtension (content : GoStr) : Bool :=
  let ext := filepathExt content
  if ext.length > 1 && ext.length ≤ 6 then true
  else fileExtensionRe content

/-- hasValidPathStructure. -/
def hasValidPathStructure (pathStr : GoStr) : Bool :=
  if pathStr.length < 2 then false
  else if !containsPathSeparator pathStr then false
  else
    let separator := if goContains pathStr (gs ("\\")) then gs ("\\")
                     else gs ("/")
    let meaningfulParts := countValidPathSegments pathStr separator
    if meaningfulParts < 2 then false
    else if hasFileExtension pathStr then true
    else if meaningfulParts ≥ 3 then true
    else
      let lowerPath := goToLower pathStr
      let windowsDirs : List GoStr :=
        [gs ("program files"), gs ("windows"), gs ("users"), gs ("temp"),
         gs ("system32"), gs ("documents"), gs ("programdata"),
         gs ("desktop"), gs ("downloads"), gs ("music"), gs ("pictures"),
         gs ("videos"), gs ("appdata"), gs ("roaming"), gs ("public"),
         gs ("inetpub"), gs ("wwwroot"), gs ("node_modules"), gs ("npm")]
      if windowsDirs.any (fun dir => goContains lowerPath dir) then true
      else if goStartsWith pathStr (gs ("/")) then
        let unixDirs : List GoStr :=
          [gs ("/bin/"), gs ("/etc/"), gs ("/var/"), gs ("/usr/"),
           gs ("/opt/"), gs ("/home/"), gs ("/tmp/"), gs ("/lib/"),
           gs ("/proc/"), gs ("/dev/"), gs ("/sys/"), gs ("/run/"),
           gs ("/srv/"), gs ("/mnt/"), gs ("/media/"), gs ("/boot/"),
           gs ("/Applications/"), gs ("/Library/"), gs ("/System/"),
           gs ("/Users/")]
        unixDirs.any (fun dir => goContains lowerPath dir)
      else false

/-- isValidPathCharacter (a rune predicate). -/
def isValidPathCharacter (r : Char) : Bool :=
  (Char.ofNat 0x61 ≤ r && r ≤ Char.ofNat 0x7a) ||
  (Char.ofNat 0x41 ≤ r && r ≤ Char.ofNat 0x5a) ||
  (Char.ofNat 0x30 ≤ r && r ≤ Char.ofNat 0x39) ||
  r = '/' || r = codeBackslash || r = ':' || r = '.' ||
  r = '-' || r = '_' || r = ' ' || r = Char.ofNat 0x7e

/-- Structural UTF-8 decoder (Go `for range` over a string iterates
runes).  The byte strings decoded here are produced by `encodeStr`, hence
always valid UTF-8; the fallback for a malformed head byte consumes one
byte, like Go's replacement-rune behaviour consumes one byte. -/
def decodeUtf8Aux : Nat → GoStr → List Char
  | 0, _ => []
  | (_+1), [] => []
  | (k+1), (b :: rest) =>
    if b < 0x80 then Char.ofNat b.toNat :: decodeUtf8Aux k rest
    else if 0xc0 ≤ b && b < 0xe0 then
      match rest with
      | c1 :: rest1 =>
        Char.ofNat ((b.toNat - 0xc0) * 0x40 + (c1.toNat - 0x80)) ::
          decodeUtf8Aux k rest1
      | [] => [Char.ofNat 0xfffd]
    else if 0xe0 ≤ b && b < 0xf0 then
      match rest with
      | c1 :: c2 :: rest2 =>
        Char.ofNat ((b.toNat - 0xe0) * 0x1000 + (c1.toNat - 0x80) * 0x40 +
          (c2.toNat - 0x80)) :: decodeUtf8Aux k rest2
      | _ => [Char.ofNat 0xfffd]
    else if 0xf0 ≤ b && b < 0xf8 then
      match rest with
      | c1 :: c2 :: c3 :: rest3 =>
        Char.ofNat ((b.toNat - 0xf0) * 0x40000 + (c1.toNat - 0x80) * 0x1000 +
          (c2.toNat - 0x80) * 0x40 + (c3.toNat - 0x80)) ::
          decodeUtf8Aux k rest3
      | _ => [Char.ofNat 0xfffd]
    else Char.ofNat 0xfffd :: decodeUtf8Aux k rest

/-- Runes of a Go string (see `decodeUtf8Aux`). -/
def goRunes (s : GoStr) : List Char := decodeUtf8Aux s.length s

/-- hasReasonableCharacterDistribution.  The loop counts valid runes, the
70% threshold divides by the byte length (`len(content)`), exactly as the
Go code mixes the two; the float64 comparison `≥ 0.7` agrees with the
rational comparison below for these magnitudes. -/
def hasReasonableCharacterDistribution (content : GoStr) : Bool :=
  if content.length = 0 then false
  else
    let validChars := ((goRunes content).filter isValidPathCharacter).length
    10 * validChars ≥ 7 * content.length

/-! ## Main path detection -/

/-- matchesWindowsPathPattern. -/
def matchesWindowsPathPattern (lowerContent content : GoStr) : Bool :=
  windowsPathPatterns.any (fun pattern =>
    goContains lowerContent pattern && containsPathSeparator content)

/-- matchesUnixPathPattern. -/
def matchesUnixPathPattern (lowerContent : GoStr) : Bool :=
  unixPathPatterns.any (fun pattern => goContains lowerContent pattern)

/-- hasCommonFileExtension. -/
def hasCommonFileExtension (lowerContent : GoStr) : Bool :=
  commonFileExtensions.any (fun ext => goHasSuffix lowerContent ext)

/-- isExcludedURL. -/
def isExcludedURL (lowerContent content : GoStr) : Bool :=
  if goStartsWith lowerContent (gs ("http://")) ||
     goStartsWith lowerContent (gs ("https://")) then true
  else if goStartsWith lowerContent (gs ("ftp://")) &&
          !goContains (content.drop 6) (gs ("/")) then true
  else false

/-- passesEarlyExclusionFilters. -/
def passesEarlyExclusionFilters (content : GoStr) : Bool :=
  if hasExcessiveEscapeSequences content then false
  else if isLikelyTextBlob content then false
  else if isBase64String content then false
  else if hasURLEncoding content then false
  else true

/-- isURLPath. -/
def isURLPath (content : GoStr) : Bool :=
  let lowerContent := goToLower content
  if goStartsWith lowerContent (gs ("http://")) ||
     goStartsWith lowerContent (gs ("https://")) then false
  else if goStartsWith lowerContent (gs ("file://")) then
    let pathPart := content.drop 7
    pathPart.length > 1 && hasValidPathStructure pathPart
  else if goStartsWith lowerContent (gs ("smb://")) then
    let pathPart := content.drop 6
    pathPart.length > 1 && hasValidPathStructure pathPart
  else if goStartsWith lowerContent (gs ("ftp://")) then
    let pathPart := content.drop 6
    let slashIndex := goIndex pathPart (gs ("/"))
    if slashIndex > 0 then
      hasValidPathStructure (pathPart.drop slashIndex.toNat)
    else false
  else false

/-- matchesAbsolutePathFormat. -/
def matchesAbsolutePathFormat (content : GoStr) : Bool :=
  isURLPath content || isWindowsAbsolutePath content ||
  isUNCPath content || isUnixAbsolutePath content

/-- isLikelyFilePath. -/
def isLikelyFilePath (content : GoStr) : Bool :=
  if content.length < 2 then false
  else
    let lowerContent := goToLower content
    if isExcludedURL lowerContent content then false
    else if !passesEarlyExclusionFilters content then false
    else if matchesAbsolutePathFormat content then true
    else if matchesWindowsPathPattern lowerContent content then true
    else if goContains content (gs ("/")) &&
            matchesUnixPathPattern lowerContent then true
    else if !containsPathSeparator content then false
    else if hasFileExtension content && hasCommonFileExtension lowerContent
         then true
    else if !hasReasonableCharacterDistribution content then false
    else hasValidPathStructure content

/-- Collection loop of `analyzePotentialFilePath`.  The loop runs while
`i < len(text) && i < startPos+150` and advances `i` by at least one per
iteration, so at most 150 iterations happen; the countdown below starts
at 150 and therefore never reaches its zero case before the real loop
condition fails. -/
def analyzeCollect (text : List Char) (startPos : Nat) :
    Nat → Nat → GoStr → Bool → (GoStr × Bool)
  | 0, _, acc, hasSep => (acc, hasSep)
  | (k+1), i, acc, hasSep =>
    if i < text.length ∧ i < startPos + 150 then
      let char := charAt text i
      if char = codeDoubleQuote then (acc, hasSep)
      else
        let hasSep := hasSep || char = codeBackslash || char = codeSlash
        if char = codeBackslash && i + 1 < text.length then
          let nextChar := charAt text (i+1)
          if nextChar = codeDoubleQuote || nextChar = codeBackslash ||
             nextChar = codeSlash || nextChar = Char.ofNat 0x62 ||
             nextChar = Char.ofNat 0x66 || nextChar = Char.ofNat 0x6e ||
             nextChar = Char.ofNat 0x72 || nextChar = Char.ofNat 0x74 then
            analyzeCollect text startPos k (i+2)
              (acc ++ encodeChar char ++ encodeChar nextChar) hasSep
          else if nextChar = Char.ofNat 0x75 then
            if i + 5 < text.length then
              analyzeCollect text startPos k (i+6)
                (acc ++ encodeStr (runeSlice text i (i+6))) hasSep
            else analyzeCollect text startPos k (i+1)
              (acc ++ encodeChar char) hasSep
          else analyzeCollect text startPos k (i+1)
            (acc ++ encodeChar char) hasSep
        else analyzeCollect text startPos k (i+1)
          (acc ++ encodeChar char) hasSep
    else (acc, hasSep)

/-- analyzePotentialFilePath. -/
def analyzePotentialFilePath (text : List Char) (startPos : Nat) : Bool :=
  if startPos ≥ text.length || charAt text startPos ≠ codeDoubleQuote then
    false
  else
    let (content, hasPathSeparator) :=
      analyzeCollect text startPos 150 (startPos + 1) [] false
    if content.length < 3 then false
    else if !hasPathSeparator then false
    else isLikelyFilePath content

/-! ## Error model (src/errors.go, `JSONRepairError` section) -/

/-- The six predefined sentinel errors wrapped by `JSONRepairError.Err`. -/
inductive ErrKind where
  | unexpectedEnd
  | objectKeyExpected
  | colonExpected
  | invalidCharacter
  | unexpectedCharacter
  | invalidUnicode
deriving DecidableEq, Repr

/-- JSONRepairError: message, position and the wrapped sentinel kind. -/
structure RepairError where
  message : GoStr
  position : Nat
  kind : ErrKind
deriving DecidableEq, Repr

def newUnexpectedEndError (position : Nat) : RepairError :=
  ⟨gs ("Unexpected end of json string"), position, .unexpectedEnd⟩

def newObjectKeyExpectedError (position : Nat) : RepairError :=
  ⟨gs ("Object key expected"), position, .objectKeyExpected⟩

def newColonExpectedError (position : Nat) : RepairError :=
  ⟨gs ("Colon expected"), position, .colonExpected⟩

def newUnexpectedCharacterError (message : GoStr) (position : Nat) :
    RepairError := ⟨message, position, .unexpectedCharacter⟩

def newInvalidUnicodeError (message : GoStr) (position : Nat) :
    RepairError := ⟨message, position, .invalidUnicode⟩

def newInvalidCharacterError (message : GoStr) (position : Nat) :
    RepairError := ⟨message, position, .invalidCharacter⟩

/-- Lowercase hex digit byte. -/
def hexDigit (k : Nat) : UInt8 :=
  if k < 10 then UInt8.ofNat (0x30 + k) else UInt8.ofNat (0x61 + (k - 10))

/-- Go `%04x` of a rune value (all call sites pass values below 0x10000,
in fact below 0x20). -/
def hex4 (n : Nat) : GoStr :=
  [hexDigit (n / 4096 % 16), hexDigit (n / 256 % 16), hexDigit (n / 16 % 16),
   hexDigit (n % 16)]

/-- Go `fmt.Sprintf` `%q` applied to a one-rune string: double-quoted with
Go escape syntax.  Runes at or above 0x80 are printed verbatim (the
`unicode.IsPrint` branch of `strconv.Quote`; no call site reaches a
non-printable one of those). -/
def goQuoteRuneString (c : Char) : GoStr :=
  let body : GoStr :=
    if c = codeDoubleQuote then gs ("\\\"")
    else if c = codeBackslash then gs ("\\\\")
    else if c = Char.ofNat 0x07 then gs ("\\a")
    else if c = codeBackspace then gs ("\\b")
    else if c = codeFormFeed then gs ("\\f")
    else if c = codeNewline then gs ("\\n")
    else if c = codeReturn then gs ("\\r")
    else if c = codeTab then gs ("\\t")
    else if c = Char.ofNat 0x0b then gs ("\\v")
    else if c < Char.ofNat 0x20 then
      gs ("\\x") ++ [hexDigit (c.toNat / 16 % 16), hexDigit (c.toNat % 16)]
    else encodeChar c
  [0x22] ++ body ++ [0x22]

/-! ## Leaf parsers (src/unnamed/part_004), no recursion through the
value dispatcher -/

/-- Count of leading runes satisfying `p` (the `for ... *i++` scans). -/
def countWhileChar (p : Char → Bool) : List Char → Nat
  | [] => 0
  | c :: cs => if p c then 1 + countWhileChar p cs else 0

/-- Count of leading bytes satisfying `p`. -/
def countWhileByte (p : UInt8 → Bool) : GoStr → Nat
  | [] => 0
  | b :: bs => if p b then 1 + countWhileByte p bs else 0

/-- parseCharacter: consume one expected rune into the output. -/
def parseCharacter (text : List Char) (i : Nat) (output : GoStr)
    (code : Char) : Bool × Nat × GoStr :=
  if i < text.length ∧ charAt text i = code then
    (true, i + 1, output ++ encodeChar (charAt text i))
  else (false, i, output)

/-- skipCharacter. -/
def skipCharacter (text : List Char) (i : Nat) (code : Char) : Bool × Nat :=
  if i < text.length ∧ charAt text i = code then (true, i + 1)
  else (false, i)

/-- Scan worker of `parseWhitespace`: consumed count and the normalized
bytes written to the local `whitespace` builder (special whitespace is
repaired to a plain space). -/
def parseWhitespaceAux (isW : Char → Bool) : List Char → Nat × GoStr
  | [] => (0, [])
  | c :: cs =>
    if isW c || isSpecialWhitespace c then
      let (n, w) := parseWhitespaceAux isW cs
      (n + 1, (if !isSpecialWhitespace c then encodeChar c else [0x20]) ++ w)
    else (0, [])

/-- parseWhitespace. -/
def parseWhitespace (text : List Char) (i : Nat) (output : GoStr)
    (skipNewline : Bool) : Bool × Nat × GoStr :=
  let isW := if skipNewline then isWhitespace else isWhitespaceExceptNewline
  let (n, w) := parseWhitespaceAux isW (text.drop i)
  if w.length > 0 then (true, i + n, output ++ w)
  else (decide (i + n > i), i + n, output)

/-- Scan worker for the interior of a block comment: number of runes until
`atEndOfBlockComment` holds or the text ends. -/
def blockCommentScan : List Char → Nat
  | [] => 0
  | a :: b :: rest =>
    if a = codeAsterisk && b = codeSlash then 0
    else 1 + blockCommentScan (b :: rest)
  | [_] => 1

/-- parseComment: single-line and block comments, skipped (not copied). -/
def parseComment (text : List Char) (i : Nat) : Bool × Nat :=
  if i + 1 < text.length then
    if charAt text i = codeSlash ∧ charAt text (i+1) = codeAsterisk then
      let i1 := i + blockCommentScan (text.drop i)
      (true, if i1 + 2 ≤ text.length then i1 + 2 else i1)
    else if charAt text i = codeSlash ∧ charAt text (i+1) = codeSlash then
      (true, i + countWhileChar (fun c => c ≠ codeNewline) (text.drop i))
    else (false, i)
  else (false, i)

/-- Position after the run of digits starting at `i`. -/
def skipDigits (text : List Char) (i : Nat) : Nat :=
  i + countWhileChar isDigit (text.drop i)

/-- Tail of `parseNumber` after the mantissa: exponent part and token
emission. -/
def parseNumberFinish (text : List Char) (start i : Nat) (output : GoStr) :
    Bool × Nat × GoStr :=
  if !atEndOfNumber text i then (false, start, output)
  else if i > start then
    let num := encodeStr (runeSlice text start i)
    if leadingZeroRe num then (true, i, output ++ [0x22] ++ num ++ [0x22])
    else (true, i, output ++ num)
  else (false, i, output)

/-- Exponent part of `parseNumber`. -/
def parseNumberExp (text : List Char) (start i : Nat) (output : GoStr) :
    Bool × Nat × GoStr :=
  if i < text.length ∧ (charAt text i = codeLowercaseE ∨
      charAt text i = codeUppercaseE) then
    let i1 := i + 1
    let i2 := if i1 < text.length ∧ (charAt text i1 = codeMinus ∨
        charAt text i1 = codePlus) then i1 + 1 else i1
    if atEndOfNumber text i2 then
      (true, i2, repairNumberEndingWithNumericSymbol text start i2 output)
    else if !isDigit (charAt text i2) then (false, start, output)
    else parseNumberFinish text start (skipDigits text i2) output
  else parseNumberFinish text start i output

/-- Fraction part of `parseNumber` (after the integer digit run). -/
def parseNumberDot (text : List Char) (start i : Nat) (output : GoStr) :
    Bool × Nat × GoStr :=
  if i < text.length ∧ charAt text i = codeDot then
    let i1 := i + 1
    if atEndOfNumber text i1 then
      (true, i1, repairNumberEndingWithNumericSymbol text start i1 output)
    else if !isDigit (charAt text i1) then (false, start, output)
    else parseNumberExp text start (skipDigits text i1) output
  else parseNumberExp text start i output

/-- parseNumber.  The Go function is one straight-line body with early
returns; it is split here along its three phases (`parseNumberDot`,
`parseNumberExp`, `parseNumberFinish`) purely to express the early
returns. -/
def parseNumber (text : List Char) (i : Nat) (output : GoStr) :
    Bool × Nat × GoStr :=
  let start := i
  if i < text.length ∧ charAt text i = codeMinus then
    let i1 := i + 1
    if atEndOfNumber text i1 then
      (true, i1, repairNumberEndingWithNumericSymbol text start i1 output)
    else if !isDigit (charAt text i1) then (false, start, output)
    else parseNumberDot text start (skipDigits text i1) output
  else parseNumberDot text start (skipDigits text i) output

/-- parseKeyword. -/
def parseKeyword (text : List Char) (i : Nat) (output : GoStr)
    (name : List Char) (value : GoStr) : Bool × Nat × GoStr :=
  if text.length - i ≥ name.length ∧ runeSlice text i (i + name.length) = name
  then (true, i + name.length, output ++ value)
  else (false, i, output)

/-- parseKeywords: JSON keywords and the Python aliases, in source
order. -/
def parseKeywords (text : List Char) (i : Nat) (output : GoStr) :
    Bool × Nat × GoStr :=
  let t1 := parseKeyword text i output ("true".toList) (gs ("true"))
  if t1.1 then t1 else
  let t2 := parseKeyword text i output ("false".toList) (gs ("false"))
  if t2.1 then t2 else
  let t3 := parseKeyword text i output ("null".toList) (gs ("null"))
  if t3.1 then t3 else
  let t4 := parseKeyword text i output ("True".toList) (gs ("true"))
  if t4.1 then t4 else
  let t5 := parseKeyword text i output ("False".toList) (gs ("false"))
  if t5.1 then t5 else
  parseKeyword text i output ("None".toList) (gs ("null"))

/-- Scan worker of `parseRegex`: runes consumed while
`text[i] != '/' || text[i-1] == '\\'`, where `prev` is the previous
rune. -/
def regexScan (prev : Char) : List Char → Nat
  | [] => 0
  | c :: cs =>
    if c ≠ codeSlash || prev = codeBackslash then 1 + regexScan c cs else 0

/-- Model of `json.Marshal` on a string (go-json-experiment/json): quoted,
with `"`, `\` and the named control escapes, other control bytes as
`\u00XX`. -/
def jsonMarshalString (s : GoStr) : GoStr :=
  let esc : UInt8 → GoStr := fun b =>
    if b = 0x22 then gs ("\\\"")
    else if b = 0x5c then gs ("\\\\")
    else if b = 0x08 then gs ("\\b")
    else if b = 0x0c then gs ("\\f")
    else if b = 0x0a then gs ("\\n")
    else if b = 0x0d then gs ("\\r")
    else if b = 0x09 then gs ("\\t")
    else if b < 0x20 then
      gs ("\\u00") ++ [hexDigit (b.toNat / 16 % 16), hexDigit (b.toNat % 16)]
    else [b]
  [0x22] ++ s.flatMap esc ++ [0x22]

/-- parseRegex: consume a `/.../` literal and re-emit it JSON-quoted. -/
def parseRegex (text : List Char) (i : Nat) (output : GoStr) :
    Bool × Nat × GoStr :=
  if i < text.length ∧ charAt text i = codeSlash then
    let start := i
    let i1 := i + 1
    let i2 := i1 + regexScan (charAt text start) (text.drop i1)
    let i3 := if i2 < text.length ∧ charAt text i2 = codeSlash then i2 + 1
              else i2
    let regexContent := encodeStr (runeSlice text start i3)
    (true, i3, output ++ jsonMarshalString regexContent)
  else (false, i, output)

/-- Match worker of `skipMarkdownCodeBlock`: first block of the list that
matches at `i`, returning the position after it. -/
def matchMarkdownBlock (text : List Char) (i : Nat) :
    List (List Char) → Option Nat
  | [] => none
  | block :: rest =>
    if i + block.length ≤ text.length ∧
       runeSlice text i (i + block.length) = block then
      some (i + block.length)
    else matchMarkdownBlock text i rest

/-- skipMarkdownCodeBlock: whitespace (written to the output), then one of
the markers. -/
def skipMarkdownCodeBlock (text : List Char) (i : Nat)
    (blocks : List (List Char)) (output : GoStr) : Bool × Nat × GoStr :=
  let (_, i1, out1) := parseWhitespace text i output true
  match matchMarkdownBlock text i1 blocks with
  | some iEnd => (true, iEnd, out1)
  | none => (false, i1, out1)

/-- parseMarkdownCodeBlock: skip the marker, an optional language tag, and
copy following whitespace (normalized) to the output. -/
def parseMarkdownCodeBlock (text : List Char) (i : Nat)
    (blocks : List (List Char)) (output : GoStr) : Bool × Nat × GoStr :=
  let (matched, i1, out1) := skipMarkdownCodeBlock text i blocks output
  if matched then
    let i2 := if i1 < text.length ∧ isFunctionNameCharStart (charAt text i1)
      then i1 + countWhileChar isFunctionNameChar (text.drop i1)
      else i1
    let (n, w) := parseWhitespaceAux isWhitespace (text.drop i2)
    (true, i2 + n, out1 ++ w)
  else (false, i1, out1)

/-- Inline cleanup in `parseArray` after each parsed element: a comma just
before a string's closing quote is removed when the string holds more
than the comma (`len(outputStr)-2-lastQuote > 2`). -/
def cleanTrailingCommaInString (outputStr : GoStr) : GoStr :=
  if goHasSuffix outputStr (gs (",\"")) then
    let lastQuote := goLastIndex (outputStr.take (outputStr.length - 2))
      (gs ("\""))
    if lastQuote ≠ -1 ∧ (outputStr.length : Int) - 2 - lastQuote > 2 then
      outputStr.take (outputStr.length - 2) ++ gs ("\"")
    else outputStr
  else outputStr

/-! ## Result type for the fueled, mutually recursive parser family.

Errors carry the `(i, output)` state visible through the Go pointers at
the moment the error is returned, because some callers ignore the error
and keep using that state.  `oof` is fuel exhaustion (no Go
counterpart). -/

inductive Res (α : Type) where
  | ok : α → Res α
  | err : RepairError → Nat → GoStr → Res α
  | oof : Res α
deriving DecidableEq, Repr

instance : Monad Res where
  pure := Res.ok
  bind := fun r f =>
    match r with
    | .ok a => f a
    | .err e i o => .err e i o
    | .oof => .oof

/-- Exit modes of the object-member loop: fall out of the loop (to the
closing-brace handling) or the `return false, nil` in the
missing-object-value branch. -/
inductive ObjExit where
  | done : Nat → GoStr → ObjExit
  | declinedValue : Nat → GoStr → ObjExit

/-- Tail of `parseUnquotedStringWithMode` after a function-call argument:
skip a close parenthesis and an optional semicolon. -/
def unquotedCallClose (text : List Char) (i : Nat) : Nat :=
  if i < text.length ∧ charAt text i = codeCloseParenthesis then
    let i1 := i + 1
    if i1 < text.length ∧ charAt text i1 = codeSemicolon then i1 + 1 else i1
  else i

/-- Non-function-call tail of `parseUnquotedStringWithMode`: URL or plain
token run, trailing-whitespace trim, `undefined` to `null`, smart-quote
normalization, and the end-quote skip. -/
def unquotedStringTail (text : List Char) (start iCur : Nat)
    (output : GoStr) (isKey : Bool) : Bool × Nat × GoStr :=
  let isURL := !isKey &&
    ((start + 8 ≤ text.length &&
        runeSlice text start (start+8) = ("https://").toList) ||
     (start + 7 ≤ text.length &&
        runeSlice text start (start+7) = ("http://").toList) ||
     (start + 6 ≤ text.length &&
        runeSlice text start (start+6) = ("ftp://").toList))
  let i :=
    if isURL then iCur + countWhileChar isURLChar (text.drop iCur)
    else iCur + countWhileChar (fun c =>
      !(isUnquotedStringDelimiter c) && !(isQuote c) &&
      !(isKey && c = codeColon)) (text.drop iCur)
  if i > start then
    let iT := i - ((runeSlice text start i).reverse.takeWhile
      isWhitespace).length
    let symbol := runeSlice text start iT
    let out1 :=
      if symbol = ("undefined").toList then output ++ gs ("null")
      else output ++ [0x22] ++ encodeStr (symbol.map (fun c =>
        if isSingleQuoteLike c || isDoubleQuoteLike c then codeDoubleQuote
        else c)) ++ [0x22]
    let iF := if iT < text.length ∧ charAt text iT = codeDoubleQuote
      then iT + 1 else iT
    (true, iF, out1)
  else (false, i, output)

/-- Comma step at the top of each non-initial object-member iteration
(pure in the Go code): parse a comma (inserting a missing one before
trailing whitespace), move it before trailing whitespace, and trim
indentation duplicated after a newline. -/
def objComma (text : List Char) (i : Nat) (output : GoStr)
    (initial : Bool) : Nat × GoStr :=
  if !initial then
    let iBefore := i
    let oBefore := output.length
    let (processedComma, ic, outc) := parseCharacter text i output
      codeComma
    if processedComma then
      if goHasSuffix outc (gs (",")) then
        let temp := outc.take (outc.length - 1)
        let temp := insertBeforeLastWhitespace temp (gs (","))
        let idx := goLastIndex temp (gs ("\n"))
        let temp :=
          if idx ≠ -1 then
            let j := idx.toNat + 1 + countWhileByte
              (fun b => b = 0x20 || b = 0x09)
              (temp.drop (idx.toNat + 1))
            if j = temp.length then temp.take (idx.toNat + 1) else temp
          else temp
        (ic, temp)
      else (ic, outc)
    else
      (iBefore, insertBeforeLastWhitespace (outc.take oBefore) (gs (",")))
  else (i, output)

/-- The `skipEscapeCharacter` adjustment applied to the cursor at the
end of each `stringLoop` iteration when escape-skipping mode is on. -/
def skipEscAdj (skipEscapeChars : Bool) (text : List Char) (j : Nat) :
    Nat :=
  if skipEscapeChars ∧ j < text.length ∧ charAt text j = codeBackslash
  then j + 1 else j

mutual

/-- parseWhitespaceAndSkipComments. -/
def parseWhitespaceAndSkipComments :
    Nat → List Char → Nat → GoStr → Bool → Res (Bool × Nat × GoStr)
  | 0, _, _, _, _ => .oof
  | (f+1), text, i, output, skipNewline => do
    let start := i
    let (_, i1, out1) := parseWhitespace text i output skipNewline
    let (i2, out2) ← wscCommentLoop f text i1 out1 skipNewline
    pure (decide (i2 > start), i2, out2)
/-- Comment-then-whitespace loop inside
`parseWhitespaceAndSkipComments`. -/
def wscCommentLoop : Nat → List Char → Nat → GoStr → Bool → Res (Nat × GoStr)
  | 0, _, _, _, _ => .oof
  | (f+1), text, i, output, skipNewline =>
    let (changed, i1) := parseComment text i
    if changed then
      let (wchanged, i2, out2) := parseWhitespace text i1 output skipNewline
      if wchanged then wscCommentLoop f text i2 out2 skipNewline
      else pure (i2, out2)
    else pure (i, output)
termination_by structural fuel => fuel
/-- skipEllipsis. -/
def skipEllipsis : Nat → List Char → Nat → GoStr → Res (Bool × Nat × GoStr)
  | 0, _, _, _ => .oof
  | (f+1), text, i, output => do
    let (_, i1, out1) ← parseWhitespaceAndSkipComments f text i output true
    if i1 + 2 < text.length ∧ charAt text i1 = codeDot ∧
       charAt text (i1+1) = codeDot ∧ charAt text (i1+2) = codeDot then do
      let (_, i2, out2) ← parseWhitespaceAndSkipComments f text (i1+3) out1
        true
      let (_, i3) := skipCharacter text i2 codeComma
      pure (true, i3, out2)
    else pure (false, i1, out1)
/-- parseValue: the dispatcher, trying object, array, string, number,
keywords, unquoted string and regex in order. -/
def parseValue : Nat → List Char → Nat → GoStr → Res (Bool × Nat × GoStr)
  | 0, _, _, _ => .oof
  | (f+1), text, i, output => do
    let (_, i1, out1) ← parseWhitespaceAndSkipComments f text i output true
    let (processedObj, i2, out2) ← parseObject f text i1 out1
    if processedObj then do
      let (_, i3, out3) ← parseWhitespaceAndSkipComments f text i2 out2 true
      pure (true, i3, out3)
    else do
      let (processedArr, i3, out3) ← parseArray f text i2 out2
      let (processed, i4, out4) ←
        if processedArr then pure (true, i3, out3)
        else do
          let (sp, ia, outa) ← parseString f text i3 out3 false (-1)
          if sp then pure (true, ia, outa)
          else
            let (np, ib, outb) := parseNumber text ia outa
            if np then pure (true, ib, outb)
            else
              let (kp, ic, outc) := parseKeywords text ib outb
              if kp then pure (true, ic, outc)
              else do
                let (up, id_, outd) ← parseUnquotedStringWithMode f text ic
                  outc false
                if up then pure (true, id_, outd)
                else
                  let (rp, ie_, oute) := parseRegex text id_ outd
                  pure (rp, ie_, oute)
      let (_, i5, out5) ← parseWhitespaceAndSkipComments f text i4 out4 true
      pure (processed, i5, out5)
termination_by structural fuel => fuel
/-- parseObject. -/
def parseObject : Nat → List Char → Nat → GoStr → Res (Bool × Nat × GoStr)
  | 0, _, _, _ => .oof
  | (f+1), text, i, output =>
    if i < text.length ∧ charAt text i = codeOpeningBrace then do
      let out1 := output ++ encodeChar (charAt text i)
      let (_, i1, out2) ← parseWhitespaceAndSkipComments f text (i+1) out1
        true
      let (skippedComma, i2) := skipCharacter text i1 codeComma
      let (i3, out3) ←
        if skippedComma then do
          let (_, a, b) ← parseWhitespaceAndSkipComments f text i2 out2 true
          pure (a, b)
        else pure (i2, out2)
      match ← objLoop f text i3 out3 true with
      | .declinedValue i4 out4 => pure (false, i4, out4)
      | .done i4 out4 =>
        if i4 < text.length ∧ charAt text i4 = codeClosingBrace then
          pure (true, i4 + 1, out4 ++ encodeChar (charAt text i4))
        else pure (true, i4, insertBeforeLastWhitespace out4 (gs ("\x7d")))
    else pure (false, i, output)
termination_by structural fuel => fuel
/-- Member loop of `parseObject`.  The comma step (pure in the Go code)
is factored into `objComma` below the mutual block; it parses a comma
(inserting a missing one before trailing whitespace), moves it before
trailing whitespace, and trims duplicated indentation after a
newline. -/
def objLoop : Nat → List Char → Nat → GoStr → Bool → Res ObjExit
  | 0, _, _, _, _ => .oof
  | (f+1), text, i, output, initial =>
    if i < text.length ∧ charAt text i ≠ codeClosingBrace then do
      let (i1, out1) := objComma text i output initial
      let (_, i2, out2) ← skipEllipsis f text i1 out1
      let (sp, i3, out3) ← parseString f text i2 out2 false (-1)
      let (processedKey, i4, out4) ← ite (sp = true) (pure (true, i3, out3))
        (parseUnquotedStringWithMode f text i3 out3 true)
      if !processedKey then
        if i4 ≥ text.length ∨ charAt text i4 = codeClosingBrace ∨
           charAt text i4 = codeOpeningBrace ∨
           charAt text i4 = codeClosingBracket ∨
           charAt text i4 = codeOpeningBracket ∨
           charAt text i4 = Char.ofNat 0 then
          pure (.done i4 (stripLastOccurrence out4 (gs (",")) false))
        else Res.err (newObjectKeyExpectedError i4) i4 out4
      else do
        let (_, i5, out5) ← parseWhitespaceAndSkipComments f text i4 out4
          true
        let (processedColon, i6, out6) := parseCharacter text i5 out5
          codeColon
        let truncatedText := decide (i6 ≥ text.length)
        let out7 ← ite (!processedColon = true)
          (ite ((i6 < text.length ∧ isStartOfValue (charAt text i6)) ∨
              truncatedText = true)
            (pure (insertBeforeLastWhitespace out6 (gs (":"))))
            (Res.err (newColonExpectedError i6) i6 out6))
          (pure out6)
        let (processedValue, i7, out8) ← parseValue f text i6 out7
        if !processedValue then
          if processedColon || truncatedText then
            objLoop f text i7 (out8 ++ gs ("null")) false
          else pure (.declinedValue i7 out8)
        else objLoop f text i7 out8 false
    else pure (.done i output)
termination_by structural fuel => fuel
/-- parseArray. -/
def parseArray : Nat → List Char → Nat → GoStr → Res (Bool × Nat × GoStr)
  | 0, _, _, _ => .oof
  | (f+1), text, i, output =>
    if i ≥ text.length then pure (false, i, output)
    else if charAt text i = codeOpeningBracket then do
      let out1 := output ++ encodeChar (charAt text i)
      let (_, i1, out2) ← parseWhitespaceAndSkipComments f text (i+1) out1
        true
      let (skippedComma, i2) := skipCharacter text i1 codeComma
      let (i3, out3) ←
        if skippedComma then do
          let (_, a, b) ← parseWhitespaceAndSkipComments f text i2 out2 true
          pure (a, b)
        else pure (i2, out2)
      let (i4, out4) ← arrLoop f text i3 out3 true
      if i4 < text.length ∧ charAt text i4 = codeClosingBracket then
        pure (true, i4 + 1, out4 ++ encodeChar (charAt text i4))
      else pure (true, i4, insertBeforeLastWhitespace out4 (gs ("]")))
    else pure (false, i, output)
termination_by structural fuel => fuel
/-- Element loop of `parseArray`. -/
def arrLoop : Nat → List Char → Nat → GoStr → Bool → Res (Nat × GoStr)
  | 0, _, _, _, _ => .oof
  | (f+1), text, i, output, initial =>
    if i < text.length ∧ charAt text i ≠ codeClosingBracket then do
      let (i1, out1) ←
        if !initial then do
          let iBefore := i
          let oBefore := output.length
          let (_, ia, outa) ← parseWhitespaceAndSkipComments f text i output
            true
          let (processedComma, ib, outb) := parseCharacter text ia outa
            codeComma
          if processedComma then pure (ib, outb)
          else
            pure (iBefore,
              insertBeforeLastWhitespace (outb.take oBefore) (gs (",")))
        else pure (i, output)
      let (_, i2, out2) ← skipEllipsis f text i1 out1
      let (processedValue, i3, out3) ← parseValue f text i2 out2
      if processedValue then
        arrLoop f text i3 (cleanTrailingCommaInString out3) false
      else
        pure (i3, stripLastOccurrence out3 (gs (",")) false)
    else pure (i, output)
termination_by structural fuel => fuel
/-- parseString: entry — optional leading backslash skip, quote-kind
selection, file-path analysis, then the main loop. -/
def parseString :
    Nat → List Char → Nat → GoStr → Bool → Int → Res (Bool × Nat × GoStr)
  | 0, _, _, _, _, _ => .oof
  | (f+1), text, i, output, stopAtDelimiter, stopAtIndex =>
    if i ≥ text.length then pure (false, i, output)
    else
      let skipEscapeChars := charAt text i = codeBackslash
      let i1 := if skipEscapeChars then i + 1 else i
      if i1 < text.length ∧ isQuote (charAt text i1) then
        let q := charAt text i1
        let isEndQuote : Char → Bool :=
          if isDoubleQuote q then isDoubleQuote
          else if isSingleQuote q then isSingleQuote
          else if isSingleQuoteLike q then isSingleQuoteLike
          else isDoubleQuoteLike
        let mcfp := analyzePotentialFilePath text i1
        stringLoop f text stopAtDelimiter stopAtIndex skipEscapeChars
          isEndQuote mcfp i1 output.length (i1+1) (gs ("\"")) output
      else pure (false, i1, output)
termination_by structural fuel => fuel
/-- Main character loop of `parseString`.  `iBefore`/`oBefore` are the
checkpoint (opening-quote position, output length), `str` the local
string builder, one fuel unit per iteration. -/
def stringLoop :
    Nat → List Char → Bool → Int → Bool → (Char → Bool) → Bool → Nat →
    Nat → Nat → GoStr → GoStr → Res (Bool × Nat × GoStr)
  | 0, _, _, _, _, _, _, _, _, _, _, _ => .oof
  | (f+1), text, stopAtDelimiter, stopAtIndex, skipEscapeChars, isEndQuote,
    mcfp, iBefore, oBefore, i, str, output =>
    if i ≥ text.length then
      -- end of text, missing end quote
      let iPrev := prevNonWhitespaceIndex text ((i : Int) - 1)
      if !stopAtDelimiter ∧ iPrev ≠ -1 ∧
         isDelimiter (charAt text iPrev.toNat) then
        parseString f text iBefore (output.take oBefore) true (-1)
      else
        pure (true, i, output ++ insertBeforeLastWhitespace str (gs ("\"")))
    else if stopAtIndex ≠ -1 ∧ (i : Int) = stopAtIndex then
      pure (true, i, output ++ insertBeforeLastWhitespace str (gs ("\"")))
    else if isEndQuote (charAt text i) then do
      let iQuote := i
      let oQuote := str.length
      let str1 := str ++ gs ("\"")
      let out1 := output ++ str1
      let (_, iAfterWhitespace, tempWhitespace) ←
        parseWhitespaceAndSkipComments f text (iQuote + 1) [] false
      if stopAtDelimiter ∨ iAfterWhitespace ≥ text.length ∨
         isDelimiter (charAt text iAfterWhitespace) ∨
         isQuote (charAt text iAfterWhitespace) ∨
         isDigit (charAt text iAfterWhitespace) then do
        let (_, i3, out3) ← parseConcatenatedString f text iAfterWhitespace
          (out1 ++ tempWhitespace)
        pure (true, i3, out3)
      else
        let iPrevChar := prevNonWhitespaceIndex text ((iQuote : Int) - 1)
        if iPrevChar ≠ -1 ∧ charAt text iPrevChar.toNat = codeComma then
          parseString f text iBefore (out1.take oBefore) false iPrevChar
        else if iPrevChar ≠ -1 ∧ isDelimiter (charAt text iPrevChar.toNat)
        then
          parseString f text iBefore (out1.take oBefore) true (-1)
        else
          -- repair unescaped quote, continue after it
          stringLoop f text stopAtDelimiter stopAtIndex skipEscapeChars
            isEndQuote mcfp iBefore oBefore (skipEscAdj skipEscapeChars text (iQuote + 1))
            (str1.take oQuote ++ gs ("\\\"")) (out1.take oBefore)
    else if stopAtDelimiter ∧ isUnquotedStringDelimiter (charAt text i)
    then do
      -- stop-at-delimiter mode, with the URL continuation
      let (i1, str1) :=
        if i > 0 ∧ charAt text (i-1) = codeColon ∧
           regexURLStart (runeSlice text (iBefore + 1)
             (min (i + 2) text.length)) then
          let n := countWhileChar isURLChar (text.drop i)
          (i + n, str ++ encodeStr (runeSlice text i (i + n)))
        else (i, str)
      let (_, i2, out2) ← parseConcatenatedString f text i1
        (output ++ insertBeforeLastWhitespace str1 (gs ("\"")))
      pure (true, i2, out2)
    else if charAt text i = codeBackslash then
      if i + 1 ≥ text.length then
        -- incomplete escape sequence at end of string
        pure (true, i + 1,
          output ++ insertBeforeLastWhitespace str (gs ("\"")))
      else
        let char := charAt text (i+1)
        if escapeCharactersContains char then
          if mcfp then
            stringLoop f text stopAtDelimiter stopAtIndex skipEscapeChars
              isEndQuote mcfp iBefore oBefore (skipEscAdj skipEscapeChars text (i+1))
              (str ++ gs ("\\\\")) output
          else
            stringLoop f text stopAtDelimiter stopAtIndex skipEscapeChars
              isEndQuote mcfp iBefore oBefore (skipEscAdj skipEscapeChars text (i+2))
              (str ++ encodeChar (charAt text i) ++ encodeChar char) output
        else if char = Char.ofNat 0x75 then
          let hexCount := (List.takeWhile isHex
            (runeSlice text (i+2) (min (i+6) text.length))).length
          if hexCount = 4 then
            if mcfp then
              stringLoop f text stopAtDelimiter stopAtIndex skipEscapeChars
                isEndQuote mcfp iBefore oBefore (skipEscAdj skipEscapeChars text (i+1))
                (str ++ gs ("\\\\")) output
            else
              stringLoop f text stopAtDelimiter stopAtIndex skipEscapeChars
                isEndQuote mcfp iBefore oBefore (skipEscAdj skipEscapeChars text (i+6))
                (str ++ encodeStr (runeSlice text i (i+6))) output
          else if i + (2 + hexCount) ≥ text.length then
            -- truncated unicode escape at the end: drop it
            stringLoop f text stopAtDelimiter stopAtIndex skipEscapeChars
              isEndQuote mcfp iBefore oBefore (skipEscAdj skipEscapeChars text text.length) str output
          else
            let endJ := 2 + (List.takeWhile (fun c =>
              !(c = codeDoubleQuote || c = codeQuote || isWhitespace c))
              (runeSlice text (i+2) (min (i+6) text.length))).length
            let chars := encodeStr (runeSlice text i (i + endJ))
            let escapedChars := goReplaceAll chars (gs ("\\")) (gs ("\\\\"))
            if mcfp ∧ hexCount = 0 ∧ i + 2 < text.length then
              let nextChar := charAt text (i+2)
              if (Char.ofNat 0x61 ≤ nextChar ∧ nextChar ≤ Char.ofNat 0x7a) ∨
                 (Char.ofNat 0x41 ≤ nextChar ∧ nextChar ≤ Char.ofNat 0x5a)
              then
                stringLoop f text stopAtDelimiter stopAtIndex
                  skipEscapeChars isEndQuote mcfp iBefore oBefore
                  (skipEscAdj skipEscapeChars text (i+1)) (str ++ gs ("\\\\")) output
              else
                Res.err (newInvalidUnicodeError
                  (gs ("invalid unicode character \"") ++ escapedChars ++
                    gs ("\"")) i) i output
            else if hexCount < 4 ∧ endJ = 2 + hexCount then
              Res.err (newInvalidUnicodeError
                (gs ("invalid unicode character \"") ++ escapedChars ++
                  gs ("\"\"")) i) i output
            else
              Res.err (newInvalidUnicodeError
                (gs ("invalid unicode character \"") ++ escapedChars ++
                  gs ("\"")) i) i output
        else
          if stopAtIndex ≠ -1 ∧ (i : Int) = stopAtIndex - 1 ∧
             isDelimiter (charAt text stopAtIndex.toNat) then
            -- stop before the delimiter that triggered reparsing
            pure (true, stopAtIndex.toNat,
              output ++ insertBeforeLastWhitespace str (gs ("\"")))
          else if mcfp then
            stringLoop f text stopAtDelimiter stopAtIndex skipEscapeChars
              isEndQuote mcfp iBefore oBefore (skipEscAdj skipEscapeChars text (i+1))
              (str ++ gs ("\\\\")) output
          else
            stringLoop f text stopAtDelimiter stopAtIndex skipEscapeChars
              isEndQuote mcfp iBefore oBefore (skipEscAdj skipEscapeChars text (i+2))
              (str ++ encodeChar char) output
    else
      let char := charAt text i
      if char = codeDoubleQuote ∧ charAt text (i-1) ≠ codeBackslash then
        stringLoop f text stopAtDelimiter stopAtIndex skipEscapeChars
          isEndQuote mcfp iBefore oBefore (skipEscAdj skipEscapeChars text (i+1))
          (str ++ gs ("\\\"")) output
      else if isControlCharacter char then
        stringLoop f text stopAtDelimiter stopAtIndex skipEscapeChars
          isEndQuote mcfp iBefore oBefore (skipEscAdj skipEscapeChars text (i+1))
          (str ++ (controlCharacters char).getD []) output
      else if !isValidStringCharacter char then
        Res.err (newInvalidCharacterError
          (gs ("invalid character \"\\\\u") ++ hex4 char.toNat ++ gs ("\""))
          i) i output
      else
        stringLoop f text stopAtDelimiter stopAtIndex skipEscapeChars
          isEndQuote mcfp iBefore oBefore (skipEscAdj skipEscapeChars text (i+1))
          (str ++ encodeChar char) output
termination_by structural fuel => fuel
/-- parseConcatenatedString. -/
def parseConcatenatedString :
    Nat → List Char → Nat → GoStr → Res (Bool × Nat × GoStr)
  | 0, _, _, _ => .oof
  | (f+1), text, i, output => do
    let iBeforeWhitespace := i
    let oBeforeWhitespace := output.length
    let (_, i1, out1) ← parseWhitespaceAndSkipComments f text i output true
    let (processed, i2, out2) ← concatLoop f text i1 out1 false
    if !processed then
      pure (false, iBeforeWhitespace, out2.take oBeforeWhitespace)
    else pure (true, i2, out2)
termination_by structural fuel => fuel
/-- Plus-chain loop of `parseConcatenatedString`; errors from the inner
`parseString` are swallowed (treated as no string). -/
def concatLoop : Nat → List Char → Nat → GoStr → Bool → Res (Bool × Nat × GoStr)
  | 0, _, _, _, _ => .oof
  | (f+1), text, i, output, processed =>
    if i < text.length ∧ charAt text i = codePlus then do
      let (_, i1, out1) ← parseWhitespaceAndSkipComments f text (i+1) output
        true
      let out2 := stripLastOccurrence out1 (gs ("\"")) true
      let start := out2.length
      match parseString f text i1 out2 false (-1) with
      | .oof => .oof
      | .err _ i2 out3 =>
        concatLoop f text i2 (insertBeforeLastWhitespace out3 (gs ("\"")))
          true
      | .ok (sp, i2, out3) =>
        if sp then
          let out4 := if out3.length > start then removeAtIndex out3 start 1
            else out3
          concatLoop f text i2 out4 true
        else
          concatLoop f text i2
            (insertBeforeLastWhitespace out3 (gs ("\""))) true
    else pure (processed, i, output)
termination_by structural fuel => fuel
/-- parseUnquotedStringWithMode. -/
def parseUnquotedStringWithMode :
    Nat → List Char → Nat → GoStr → Bool → Res (Bool × Nat × GoStr)
  | 0, _, _, _, _ => .oof
  | (f+1), text, i, output, isKey =>
    let start := i
    if i ≥ text.length then pure (false, i, output)
    else if isFunctionNameCharStart (charAt text i) then
      let i1 := i + countWhileChar isFunctionNameChar (text.drop i)
      let j := i1 + countWhileChar isWhitespace (text.drop i1)
      if j < text.length ∧ charAt text j = codeOpenParenthesis then
        -- MongoDB / JSONP function call; inner errors are not critical
        match parseValue f text (j+1) output with
        | .oof => .oof
        | .err _ i2 out2 => pure (true, unquotedCallClose text i2, out2)
        | .ok (_, i2, out2) => pure (true, unquotedCallClose text i2, out2)
      else pure (unquotedStringTail text start i1 output isKey)
    else pure (unquotedStringTail text start i output isKey)
termination_by structural fuel => fuel
end

/-- parseUnquotedString. -/
def parseUnquotedString (fuel : Nat) (text : List Char) (i : Nat)
    (output : GoStr) : Res (Bool × Nat × GoStr) :=
  parseUnquotedStringWithMode fuel text i output false

/-- Value loop of `parseNewlineDelimitedJSON`; a `parseValue` error just
ends the loop (state kept). -/
def ndjsonLoop : Nat → List Char → Nat → GoStr → Bool → Res (Nat × GoStr)
  | 0, _, _, _, _ => .oof
  | (f+1), text, i, output, initial => do
    let (i1, out1) ←
      if !initial then
        let (processedComma, ia, outa) := parseCharacter text i output
          codeComma
        if processedComma then pure (ia, outa)
        else pure (ia, insertBeforeLastWhitespace outa (gs (",")))
      else pure (i, output)
    match parseValue f text i1 out1 with
    | .oof => .oof
    | .err _ i2 out2 =>
      pure (i2, stripLastOccurrence out2 (gs (",")) false)
    | .ok (processedValue, i2, out2) =>
      if processedValue then ndjsonLoop f text i2 out2 false
      else pure (i2, stripLastOccurrence out2 (gs (",")) false)
termination_by structural fuel => fuel

/-- parseNewlineDelimitedJSON: parse the remaining values and wrap
everything in array brackets. -/
def parseNewlineDelimitedJSON (fuel : Nat) (text : List Char) (i : Nat)
    (output : GoStr) : Res (Nat × GoStr) := do
  let (i1, out1) ← ndjsonLoop fuel text i output true
  pure (i1, gs ("[\n") ++ out1 ++ gs ("\n]"))

/-- Loop in `Repair` skipping redundant trailing closing braces and
brackets. -/
def closeBraceLoop : Nat → List Char → Nat → GoStr → Res (Nat × GoStr)
  | 0, _, _, _ => .oof
  | (f+1), text, i, output =>
    if i < text.length ∧ (charAt text i = codeClosingBrace ∨
        charAt text i = codeClosingBracket) then do
      let (_, i1, out1) ← parseWhitespaceAndSkipComments f text (i+1) output
        true
      closeBraceLoop f text i1 out1
    else pure (i, output)
termination_by structural fuel => fuel

/-- The pipeline of `Repair` up to (but not including) the final
remaining-input check: markdown fences, the top-level value, the NDJSON
detection, redundant closing brackets, trailing whitespace.  Returns the
final cursor and output buffer. -/
def repairCore (fuel : Nat) (runes : List Char) : Res (Nat × GoStr) := do
  let (_, i0, out0) := parseMarkdownCodeBlock runes 0
    [("```").toList, ("[```").toList, ("\x7b```").toList] []
  let (success, i1, out1) ← parseValue fuel runes i0 out0
  if !success then Res.err (newUnexpectedEndError runes.length) i1 out1
  else
    let (_, i2, out2) := parseMarkdownCodeBlock runes i1
      [("```").toList, ("```]").toList, ("```\x7d").toList] out1
    let (processedComma, i3, out3) := parseCharacter runes i2 out2 codeComma
    let (i4, out4) ←
      if processedComma then do
        let (_, a, b) ← parseWhitespaceAndSkipComments fuel runes i3 out3
          true
        pure (a, b)
      else pure (i3, out3)
    let (i6, out6) ←
      if i4 < runes.length ∧ isStartOfValue (charAt runes i4) ∧
         endsWithCommaOrNewline out4 then
        let out5 := if !processedComma then
            insertBeforeLastWhitespace out4 (gs (","))
          else out4
        parseNewlineDelimitedJSON fuel runes i4 out5
      else if processedComma then
        pure (i4, stripLastOccurrence out4 (gs (",")) false)
      else pure (i4, out4)
    let (i7, out7) ← closeBraceLoop fuel runes i6 out6
    let (_, i8, out8) ← parseWhitespaceAndSkipComments fuel runes i7 out7
      true
    pure (i8, out8)

/-- Repair.  Mirrors the Go signature `(string, error)`: `some (doc,
none)` on success, `some ("", some err)` on a structured error, `none`
only when the embedding's fuel is exhausted. -/
def Repair (fuel : Nat) (text : String) : Option (GoStr × Option RepairError) :=
  if text.length = 0 then some ([], some (newUnexpectedEndError 0))
  else
    let runes := text.toList
    match repairCore fuel runes with
    | .oof => none
    | .err e _ _ => some ([], some e)
    | .ok (i, out) =>
      if i ≥ runes.length then some (out, none)
      else some ([], some (newUnexpectedCharacterError
        (gs ("unexpected character ") ++ goQuoteRuneString (charAt runes i))
        i))

/-! ## RFC 8259 validity (for checking the spec's success-output
contract; the repository itself contains no JSON validator) -/

/-- Modelled from the spec: the spec promises that a success output
"parses as valid JSON per RFC 8259"; the repository has no validator of
its own, so RFC 8259 white space is modelled here directly from the
grammar (`ws = *( %x20 / %x09 / %x0A / %x0D )`). -/
def rfcSkipWs (s : GoStr) (i : Nat) : Nat :=
  i + countWhileByte
    (fun b => b = 0x20 || b = 0x09 || b = 0x0a || b = 0x0d) (s.drop i)

/-- Modelled from the spec: RFC 8259 `string` body after the opening
quote (unescaped chars are %x20-21 / %x23-5B / %x5D-10FFFF, escapes are
the eight named ones and `\uXXXX`); byte-level over UTF-8, assuming
well-formed UTF-8 input.  Countdown-fueled by the byte length. -/
def rfcStringAux : Nat → GoStr → Nat → Option Nat
  | 0, _, _ => none
  | (k+1), s, i =>
    if ¬ i < s.length then none
    else
      let b := byteAt s i
      if b = 0x22 then some (i+1)
      else if b = 0x5c then
        if i + 1 < s.length then
          let e := byteAt s (i+1)
          if e = 0x22 ∨ e = 0x5c ∨ e = 0x2f ∨ e = 0x62 ∨ e = 0x66 ∨
             e = 0x6e ∨ e = 0x72 ∨ e = 0x74 then rfcStringAux k s (i+2)
          else if e = 0x75 then
            if i + 5 < s.length ∧ isHexByte (byteAt s (i+2)) ∧
               isHexByte (byteAt s (i+3)) ∧ isHexByte (byteAt s (i+4)) ∧
               isHexByte (byteAt s (i+5)) then rfcStringAux k s (i+6)
            else none
          else none
        else none
      else if b < 0x20 then none
      else rfcStringAux k s (i+1)

/-- Modelled from the spec: RFC 8259 `string`. -/
def rfcString (s : GoStr) (i : Nat) : Option Nat :=
  if i < s.length ∧ byteAt s i = 0x22 then rfcStringAux s.length s (i+1)
  else none

/-- Modelled from the spec: RFC 8259 `number`
(`-? int frac? exp?` with `int = 0 / [1-9]digit*`). -/
def rfcNumber (s : GoStr) (i : Nat) : Option Nat :=
  let i1 := if i < s.length ∧ byteAt s i = 0x2d then i + 1 else i
  if ¬ (i1 < s.length ∧ isDigitByte (byteAt s i1)) then none
  else
    let i2 := if byteAt s i1 = 0x30 then i1 + 1
      else i1 + countWhileByte isDigitByte (s.drop i1)
    let i3opt :=
      if i2 < s.length ∧ byteAt s i2 = 0x2e then
        let d := countWhileByte isDigitByte (s.drop (i2+1))
        if d = 0 then none else some (i2 + 1 + d)
      else some i2
    match i3opt with
    | none => none
    | some i3 =>
      if i3 < s.length ∧ (byteAt s i3 = 0x65 ∨ byteAt s i3 = 0x45) then
        let i4 := if i3 + 1 < s.length ∧ (byteAt s (i3+1) = 0x2b ∨
            byteAt s (i3+1) = 0x2d) then i3 + 2 else i3 + 1
        let d := countWhileByte isDigitByte (s.drop i4)
        if d = 0 then none else some (i4 + d)
      else some i3

mutual

/-- Modelled from the spec: RFC 8259 `value` (object, array, number,
string, `true`, `false`, `null`).  Fueled; one unit per nested value. -/
def rfcValue : Nat → GoStr → Nat → Option Nat
  | 0, _, _ => none
  | (f+1), s, i =>
    if ¬ i < s.length then none
    else
      let b := byteAt s i
      if b = 0x74 then
        if goStartsWith (s.drop i) (gs ("true")) then some (i+4) else none
      else if b = 0x66 then
        if goStartsWith (s.drop i) (gs ("false")) then some (i+5) else none
      else if b = 0x6e then
        if goStartsWith (s.drop i) (gs ("null")) then some (i+4) else none
      else if b = 0x22 then rfcString s i
      else if b = 0x7b then rfcMembers f s (rfcSkipWs s (i+1)) true
      else if b = 0x5b then rfcElements f s (rfcSkipWs s (i+1)) true
      else rfcNumber s i
termination_by structural fuel => fuel

/-- Modelled from the spec: RFC 8259 object members after `{` (cursor
past leading white space). -/
def rfcMembers : Nat → GoStr → Nat → Bool → Option Nat
  | 0, _, _, _ => none
  | (f+1), s, i, first =>
    if first ∧ i < s.length ∧ byteAt s i = 0x7d then some (i+1)
    else
      match rfcString s i with
      | none => none
      | some j =>
        let j := rfcSkipWs s j
        if j < s.length ∧ byteAt s j = 0x3a then
          match rfcValue f s (rfcSkipWs s (j+1)) with
          | none => none
          | some k =>
            let k := rfcSkipWs s k
            if k < s.length ∧ byteAt s k = 0x2c then
              rfcMembers f s (rfcSkipWs s (k+1)) false
            else if k < s.length ∧ byteAt s k = 0x7d then some (k+1)
            else none
        else none
termination_by structural fuel => fuel

/-- Modelled from the spec: RFC 8259 array elements after `[` (cursor
past leading white space). -/
def rfcElements : Nat → GoStr → Nat → Bool → Option Nat
  | 0, _, _, _ => none
  | (f+1), s, i, first =>
    if first ∧ i < s.length ∧ byteAt s i = 0x5d then some (i+1)
    else
      match rfcValue f s i with
      | none => none
      | some k =>
        let k := rfcSkipWs s k
        if k < s.length ∧ byteAt s k = 0x2c then
          rfcElements f s (rfcSkipWs s (k+1)) false
        else if k < s.length ∧ byteAt s k = 0x5d then some (k+1)
        else none
termination_by structural fuel => fuel

end

/-- Modelled from the spec: a byte string parses as an RFC 8259 JSON text
(`ws value ws`, nothing left over).  The fuel `2*length+2` exceeds the
nesting depth of any document of that length. -/
def rfc8259Valid (s : GoStr) : Bool :=
  match rfcValue (2 * s.length + 2) s (rfcSkipWs s 0) with
  | none => false
  | some j => rfcSkipWs s j = s.length

/-! # Claims -/

/-- Claim C1: the spec says every success output of `Repair` parses as
valid JSON per RFC 8259, in particular for bare tokens containing
backslashes.  The code violates this: on input `a\x`,
`parseUnquotedStringWithMode` copies the backslash verbatim between added
quotes, so `Repair` succeeds with `"a\x"`, which contains the invalid
escape `\x` and is not RFC 8259 JSON.  (The third conjunct shows the
validity checker is not vacuously false.) -/
theorem C1_success_output_can_be_invalid_json :
    Repair 200 ("a\\x") = some (gs ("\"a\\x\""), none) ∧
    rfc8259Valid (gs ("\"a\\x\"")) = false ∧
    rfc8259Valid (gs ("[\"ab\", -2.5e3, \x7b\"a\":null\x7d]")) = true := by
  refine ⟨by decide, by decide, by decide⟩

/-- Claim C2: the spec says any already-valid RFC 8259 document is
returned unchanged (modulo special-whitespace normalization).  The code
violates this: `["ab,"]` is valid JSON (second conjunct), yet the array
parser's comma-cleanup rewrites it to `["ab"]`, deleting the comma from
the string content. -/
theorem C2_valid_input_corrupted :
    Repair 200 ("[\"ab,\"]") = some (gs ("[\"ab\"]"), none) ∧
    rfc8259Valid (gs ("[\"ab,\"]")) = true ∧
    gs ("[\"ab\"]") ≠ gs ("[\"ab,\"]") := by
  refine ⟨by decide, by decide, by decide⟩

/-- Claim C3: the spec says `Repair` is idempotent on its successful
outputs.  The code violates this: `Repair "a\x"` succeeds with `"a\x"`,
but repairing that output gives `"ax"`, a different string, so
`Repair (Repair x) ≠ Repair x` at `x = a\x`. -/
theorem C3_not_idempotent :
    Repair 200 ("a\\x") = some (gs ("\"a\\x\""), none) ∧
    Repair 200 ("\"a\\x\"") = some (gs ("\"ax\""), none) ∧
    gs ("\"ax\"") ≠ gs ("\"a\\x\"") := by
  refine ⟨by decide, by decide, by decide⟩

/-! ## Helper lemmas -/

theorem runeSlice_add (text : List Char) (i k : Nat) :
    runeSlice text i (i + k) = (text.drop i).take k := by
  simp [runeSlice, List.drop_take]

/-- Claim C4: `Repair` is atomic on failure — it returns a pair of
document and structured error, and whenever the error is present the
document string is empty and the error kind is one of the six predefined
kinds. -/
theorem C4_atomic_failure :
    ∀ (fuel : Nat) (s : String) (doc : GoStr) (e : RepairError),
      Repair fuel s = some (doc, some e) →
      doc = [] ∧ (e.kind = .unexpectedEnd ∨ e.kind = .objectKeyExpected ∨
        e.kind = .colonExpected ∨ e.kind = .invalidCharacter ∨
        e.kind = .unexpectedCharacter ∨ e.kind = .invalidUnicode) := by
  intro fuel s doc e h
  constructor
  · simp only [Repair] at h
    split at h
    · simp only [Option.some.injEq, Prod.mk.injEq] at h
      exact h.1.symm
    · split at h
      · simp at h
      · simp only [Option.some.injEq, Prod.mk.injEq] at h
        exact h.1.symm
      · split at h
        · simp at h
        · simp only [Option.some.injEq, Prod.mk.injEq] at h
          exact h.1.symm
  · rcases e with ⟨m, p, k⟩
    cases k <;> simp

/-- Claim C4 witness: the empty input fails with `UnexpectedEnd`, the
document is empty and the kind is among the six. -/
theorem C4_witness :
    Repair 1 ("") = some ([], some (newUnexpectedEndError 0)) ∧
    (([] : GoStr) = [] ∧ ((newUnexpectedEndError 0).kind = .unexpectedEnd ∨
      (newUnexpectedEndError 0).kind = .objectKeyExpected ∨
      (newUnexpectedEndError 0).kind = .colonExpected ∨
      (newUnexpectedEndError 0).kind = .invalidCharacter ∨
      (newUnexpectedEndError 0).kind = .unexpectedCharacter ∨
      (newUnexpectedEndError 0).kind = .invalidUnicode)) :=
  ⟨by decide, C4_atomic_failure 1 ("") [] (newUnexpectedEndError 0)
    (by decide)⟩

/-- Claim C6: once the top-level pipeline (markdown fences, the value,
NDJSON continuation, redundant closing brackets, trailing whitespace and
comments) has finished at cursor `i` with input remaining, `Repair` fails
with an `UnexpectedCharacter` error positioned at `i`, the zero-based
rune offset of the first remaining character. -/
theorem C6_trailing_input_unexpected_character :
    ∀ (fuel : Nat) (s : String) (i : Nat) (out : GoStr),
      repairCore fuel s.toList = .ok (i, out) → i < s.toList.length →
      Repair fuel s = some ([], some (newUnexpectedCharacterError
        (gs ("unexpected character ") ++
          goQuoteRuneString (charAt s.toList i)) i)) := by
  intro fuel s i out h hlt
  have hne : ¬ s.length = 0 := by
    have hlen : s.length = s.toList.length := rfl
    omega
  unfold Repair
  rw [if_neg hne]
  simp only [h, if_neg (Nat.not_le.mpr hlt)]

/-- Claim C6 witness: `foo {}` reaches the final check at offset 4 (the
`{`) and fails there with `UnexpectedCharacter`. -/
theorem C6_witness :
    repairCore 200 (("foo \x7b\x7d").toList) = .ok (4, gs ("\"foo\" ")) ∧
    4 < (("foo \x7b\x7d").toList).length ∧
    Repair 200 ("foo \x7b\x7d") = some ([], some
      (newUnexpectedCharacterError
        (gs ("unexpected character ") ++
          goQuoteRuneString (charAt (("foo \x7b\x7d").toList) 4)) 4)) :=
  ⟨by decide, by decide,
    C6_trailing_input_unexpected_character 200 ("foo \x7b\x7d") 4
      (gs ("\"foo\" ")) (by decide) (by decide)⟩

/-- Routing through the optional leading minus of `parseNumber`: when
the token either has no minus (the mantissa scan starts at the cursor)
or has a minus followed by a digit run that is not yet at a number end
(the scan starts one past the minus), `parseNumber` continues in its
fraction phase from the end of the integer digit run. -/
theorem parseNumber_route (text : List Char) (i m : Nat) (out : GoStr)
    (hentry : (¬(i < text.length ∧ charAt text i = codeMinus) ∧ m = i) ∨
      (i < text.length ∧ charAt text i = codeMinus ∧
       atEndOfNumber text (i+1) = false ∧
       isDigit (charAt text (i+1)) = true ∧ m = i + 1)) :
    parseNumber text i out = parseNumberDot text i (skipDigits text m) out
    := by
  rcases hentry with ⟨hnm, rfl⟩ | ⟨hlt, hms, hA, hD, rfl⟩
  · simp only [parseNumber, if_neg hnm]
  · have hA' : ¬(atEndOfNumber text (i+1) = true) := by simp [hA]
    have hD' : ¬((!isDigit (charAt text (i+1))) = true) := by simp [hD]
    simp only [parseNumber, if_pos (And.intro hlt hms), if_neg hA',
      if_neg hD']

/-- Routing through the optional fraction of `parseNumber`: either there
is no decimal point at the end of the integer run, or there is one
followed by a digit run that is not yet at a number end; in both cases
the exponent phase is entered at the end of the consumed digits. -/
theorem parseNumberDot_route (text : List Char) (i j p : Nat)
    (out : GoStr)
    (hroute : (¬(j < text.length ∧ charAt text j = codeDot) ∧ p = j) ∨
      (j < text.length ∧ charAt text j = codeDot ∧
       atEndOfNumber text (j+1) = false ∧
       isDigit (charAt text (j+1)) = true ∧
       p = skipDigits text (j+1))) :
    parseNumberDot text i j out = parseNumberExp text i p out := by
  rcases hroute with ⟨hnd, rfl⟩ | ⟨hjl, hdot, hA, hD, rfl⟩
  · simp only [parseNumberDot, if_neg hnd]
  · have hA' : ¬(atEndOfNumber text (j+1) = true) := by simp [hA]
    have hD' : ¬((!isDigit (charAt text (j+1))) = true) := by simp [hD]
    simp only [parseNumberDot, if_pos (And.intro hjl hdot), if_neg hA',
      if_neg hD']

/-- The repair site after a decimal point: a number end right after the
`.` makes the fraction phase emit the token with `0` appended. -/
theorem parseNumberDot_repair_site (text : List Char) (i j : Nat)
    (out : GoStr) (hjlen : j < text.length)
    (hdot : charAt text j = codeDot)
    (hend : atEndOfNumber text (j+1) = true) :
    parseNumberDot text i j out =
      (true, j+1, out ++ encodeStr (runeSlice text i (j+1)) ++ [0x30]) := by
  simp only [parseNumberDot, if_pos (And.intro hjlen hdot), hend,
    if_pos rfl, repairNumberEndingWithNumericSymbol]
  simp [hend]

/-- The repair site after an unsigned exponent marker: a number end
right after the `e`/`E` makes the exponent phase emit the token with `0`
appended. -/
theorem parseNumberExp_repair_nosign (text : List Char) (i j : Nat)
    (out : GoStr) (hjlen : j < text.length)
    (hexp : charAt text j = codeLowercaseE ∨
      charAt text j = codeUppercaseE)
    (hnosign : ¬(j + 1 < text.length ∧ (charAt text (j+1) = codeMinus ∨
      charAt text (j+1) = codePlus)))
    (hend : atEndOfNumber text (j+1) = true) :
    parseNumberExp text i j out =
      (true, j+1, out ++ encodeStr (runeSlice text i (j+1)) ++ [0x30]) := by
  simp only [parseNumberExp, if_pos (And.intro hjlen hexp), if_neg hnosign,
    hend, if_pos rfl, repairNumberEndingWithNumericSymbol]
  simp [hend]

/-- The repair site after a signed exponent marker: a number end right
after the sign makes the exponent phase emit the token with `0`
appended. -/
theorem parseNumberExp_repair_sign (text : List Char) (i j : Nat)
    (out : GoStr) (hjlen : j < text.length)
    (hexp : charAt text j = codeLowercaseE ∨
      charAt text j = codeUppercaseE)
    (hs1 : j + 1 < text.length)
    (hs2 : charAt text (j+1) = codeMinus ∨ charAt text (j+1) = codePlus)
    (hend : atEndOfNumber text (j+2) = true) :
    parseNumberExp text i j out =
      (true, j+2, out ++ encodeStr (runeSlice text i (j+2)) ++ [0x30]) := by
  simp only [parseNumberExp, if_pos (And.intro hjlen hexp),
    if_pos (And.intro hs1 hs2), hend, if_pos rfl,
    repairNumberEndingWithNumericSymbol]
  simp [hend]

/-- Claim C7: wherever a structurally required digit run is instead
immediately followed by a delimiter, whitespace or the end of input,
`parseNumber` emits the consumed token with a synthetic `0` appended.
The general conjuncts cover every number token: the run after `-`
(conjunct 1), the run after `.` with an optional leading minus
(conjunct 2), and the run after an exponent marker without and with a
sign, with an optional leading minus and an optional fraction
(conjuncts 3 and 4); the concrete conjuncts are the claim's examples
(`{"a":2e}`, `2.`, `2e-`, a lone `-`) together with the minus-prefixed
and fraction-carrying shapes `-2.`, `2.5e` and `-2e`. -/
theorem C7_number_repair_appends_zero :
    (∀ (text : List Char) (i : Nat) (out : GoStr),
      i < text.length → charAt text i = codeMinus →
      atEndOfNumber text (i+1) = true →
      parseNumber text i out =
        (true, i+1, out ++ encodeStr (runeSlice text i (i+1)) ++ [0x30])) ∧
    (∀ (text : List Char) (i m j : Nat) (out : GoStr),
      ((¬(i < text.length ∧ charAt text i = codeMinus) ∧ m = i) ∨
       (i < text.length ∧ charAt text i = codeMinus ∧
        atEndOfNumber text (i+1) = false ∧
        isDigit (charAt text (i+1)) = true ∧ m = i + 1)) →
      skipDigits text m = j →
      j < text.length → charAt text j = codeDot →
      atEndOfNumber text (j+1) = true →
      parseNumber text i out =
        (true, j+1, out ++ encodeStr (runeSlice text i (j+1)) ++ [0x30])) ∧
    (∀ (text : List Char) (i m j p : Nat) (out : GoStr),
      ((¬(i < text.length ∧ charAt text i = codeMinus) ∧ m = i) ∨
       (i < text.length ∧ charAt text i = codeMinus ∧
        atEndOfNumber text (i+1) = false ∧
        isDigit (charAt text (i+1)) = true ∧ m = i + 1)) →
      skipDigits text m = j →
      ((¬(j < text.length ∧ charAt text j = codeDot) ∧ p = j) ∨
       (j < text.length ∧ charAt text j = codeDot ∧
        atEndOfNumber text (j+1) = false ∧
        isDigit (charAt text (j+1)) = true ∧
        p = skipDigits text (j+1))) →
      p < text.length →
      (charAt text p = codeLowercaseE ∨ charAt text p = codeUppercaseE) →
      ¬ (p + 1 < text.length ∧ (charAt text (p+1) = codeMinus ∨
          charAt text (p+1) = codePlus)) →
      atEndOfNumber text (p+1) = true →
      parseNumber text i out =
        (true, p+1, out ++ encodeStr (runeSlice text i (p+1)) ++ [0x30])) ∧
    (∀ (text : List Char) (i m j p : Nat) (out : GoStr),
      ((¬(i < text.length ∧ charAt text i = codeMinus) ∧ m = i) ∨
       (i < text.length ∧ charAt text i = codeMinus ∧
        atEndOfNumber text (i+1) = false ∧
        isDigit (charAt text (i+1)) = true ∧ m = i + 1)) →
      skipDigits text m = j →
      ((¬(j < text.length ∧ charAt text j = codeDot) ∧ p = j) ∨
       (j < text.length ∧ charAt text j = codeDot ∧
        atEndOfNumber text (j+1) = false ∧
        isDigit (charAt text (j+1)) = true ∧
        p = skipDigits text (j+1))) →
      p < text.length →
      (charAt text p = codeLowercaseE ∨ charAt text p = codeUppercaseE) →
      p + 1 < text.length →
      (charAt text (p+1) = codeMinus ∨ charAt text (p+1) = codePlus) →
      atEndOfNumber text (p+2) = true →
      parseNumber text i out =
        (true, p+2, out ++ encodeStr (runeSlice text i (p+2)) ++ [0x30])) ∧
    Repair 200 ("\x7b\"a\":2e\x7d") = some (gs ("\x7b\"a\":2e0\x7d"), none) ∧
    Repair 200 ("2.") = some (gs ("2.0"), none) ∧
    Repair 200 ("2e-") = some (gs ("2e-0"), none) ∧
    Repair 200 ("-") = some (gs ("-0"), none) ∧
    Repair 200 ("-2.") = some (gs ("-2.0"), none) ∧
    Repair 200 ("2.5e") = some (gs ("2.5e0"), none) ∧
    Repair 200 ("-2e") = some (gs ("-2e0"), none) := by
  refine ⟨?_, ?_, ?_, ?_, by decide, by decide, by decide, by decide,
    by decide, by decide, by decide⟩
  · intro text i out h1 h2 h3
    simp [parseNumber, h1, h2, h3, repairNumberEndingWithNumericSymbol]
  · intro text i m j out hentry hj hjlen hdot hend
    rw [parseNumber_route text i m out hentry, hj]
    exact parseNumberDot_repair_site text i j out hjlen hdot hend
  · intro text i m j p out hentry hj hroute hplen hexp hnosign hend
    rw [parseNumber_route text i m out hentry, hj,
      parseNumberDot_route text i j p out hroute]
    exact parseNumberExp_repair_nosign text i p out hplen hexp hnosign hend
  · intro text i m j p out hentry hj hroute hplen hexp hs1 hs2 hend
    rw [parseNumber_route text i m out hentry, hj,
      parseNumberDot_route text i j p out hroute]
    exact parseNumberExp_repair_sign text i p out hplen hexp hs1 hs2 hend

/-- Claim C7 witness: three concrete tokens, one per general shape —
the lone `-` (conjunct 1), the minus-prefixed `-2.` (conjunct 2 through
its minus entry), and the fraction-carrying `2.5e` (conjunct 3 through
its fraction route) — each discharging the hypotheses at the concrete
input. -/
theorem C7_witness :
    ((0 < (("-").toList).length ∧ charAt (("-").toList) 0 = codeMinus ∧
      atEndOfNumber (("-").toList) 1 = true) ∧
     parseNumber (("-").toList) 0 [] =
      (true, 1, [] ++ encodeStr (runeSlice (("-").toList) 0 1) ++ [0x30]))
    ∧
    ((0 < (("-2.").toList).length ∧
      charAt (("-2.").toList) 0 = codeMinus ∧
      atEndOfNumber (("-2.").toList) 1 = false ∧
      isDigit (charAt (("-2.").toList) 1) = true ∧
      skipDigits (("-2.").toList) 1 = 2 ∧
      charAt (("-2.").toList) 2 = codeDot ∧
      atEndOfNumber (("-2.").toList) 3 = true) ∧
     parseNumber (("-2.").toList) 0 [] =
      (true, 3,
        [] ++ encodeStr (runeSlice (("-2.").toList) 0 3) ++ [0x30])) ∧
    ((skipDigits (("2.5e").toList) 0 = 1 ∧
      charAt (("2.5e").toList) 1 = codeDot ∧
      atEndOfNumber (("2.5e").toList) 2 = false ∧
      isDigit (charAt (("2.5e").toList) 2) = true ∧
      skipDigits (("2.5e").toList) 2 = 3 ∧
      (charAt (("2.5e").toList) 3 = codeLowercaseE ∨
       charAt (("2.5e").toList) 3 = codeUppercaseE) ∧
      atEndOfNumber (("2.5e").toList) 4 = true) ∧
     parseNumber (("2.5e").toList) 0 [] =
      (true, 4,
        [] ++ encodeStr (runeSlice (("2.5e").toList) 0 4) ++ [0x30])) :=
  ⟨⟨⟨by decide, by decide, by decide⟩,
    C7_number_repair_appends_zero.1 (("-").toList) 0 [] (by decide)
      (by decide) (by decide)⟩,
   ⟨⟨by decide, by decide, by decide, by decide, by decide, by decide,
     by decide⟩,
    C7_number_repair_appends_zero.2.1 (("-2.").toList) 0 1 2 []
      (Or.inr ⟨by decide, by decide, by decide, by decide, rfl⟩)
      (by decide) (by decide) (by decide) (by decide)⟩,
   ⟨⟨by decide, by decide, by decide, by decide, by decide, by decide,
     by decide⟩,
    C7_number_repair_appends_zero.2.2.1 (("2.5e").toList) 0 0 1 3 []
      (Or.inl ⟨by decide, rfl⟩) (by decide)
      (Or.inr ⟨by decide, by decide, by decide, by decide, by decide⟩)
      (by decide) (Or.inl (by decide)) (by decide) (by decide)⟩⟩

/-- Claim C10: keyword matching is by prefix with no word-boundary check.
For each of the six keywords, any text whose runes at the cursor spell the
keyword — regardless of what follows, identifier characters included —
makes `parseKeywords` consume exactly the keyword and emit its mapped
value; consequently `Repair "truex"` emits `true`, then fails with
`UnexpectedCharacter` at offset 4, just past the keyword, instead of
quoting the whole token. -/
theorem C10_keyword_prefix_no_boundary :
    (∀ (text : List Char) (i : Nat) (out : GoStr),
      text.length - i ≥ 4 → runeSlice text i (i+4) = ("true").toList →
      parseKeywords text i out = (true, i + 4, out ++ gs ("true"))) ∧
    (∀ (text : List Char) (i : Nat) (out : GoStr),
      text.length - i ≥ 5 → runeSlice text i (i+5) = ("false").toList →
      parseKeywords text i out = (true, i + 5, out ++ gs ("false"))) ∧
    (∀ (text : List Char) (i : Nat) (out : GoStr),
      text.length - i ≥ 4 → runeSlice text i (i+4) = ("null").toList →
      parseKeywords text i out = (true, i + 4, out ++ gs ("null"))) ∧
    (∀ (text : List Char) (i : Nat) (out : GoStr),
      text.length - i ≥ 4 → runeSlice text i (i+4) = ("True").toList →
      parseKeywords text i out = (true, i + 4, out ++ gs ("true"))) ∧
    (∀ (text : List Char) (i : Nat) (out : GoStr),
      text.length - i ≥ 5 → runeSlice text i (i+5) = ("False").toList →
      parseKeywords text i out = (true, i + 5, out ++ gs ("false"))) ∧
    (∀ (text : List Char) (i : Nat) (out : GoStr),
      text.length - i ≥ 4 → runeSlice text i (i+4) = ("None").toList →
      parseKeywords text i out = (true, i + 4, out ++ gs ("null"))) ∧
    Repair 200 ("truex") = some ([], some (newUnexpectedCharacterError
      (gs ("unexpected character ") ++ goQuoteRuneString (Char.ofNat 0x78))
      4)) := by
  have take4 : ∀ (text : List Char) (i : Nat) (l5 : List Char),
      runeSlice text i (i+5) = l5 →
      runeSlice text i (i+4) = l5.take 4 := by
    intro text i l5 h5
    have h := congrArg (List.take 4) h5
    rw [runeSlice_add, List.take_take] at h
    rw [runeSlice_add]
    simpa using h
  have rej5 : ∀ (text : List Char) (i : Nat) (kw : List Char),
      runeSlice text i (i+4) ≠ kw.take 4 →
      ¬ (5 ≤ text.length - i ∧ runeSlice text i (i+5) = kw) := by
    rintro text i kw hne ⟨-, hB⟩
    exact hne (by rw [take4 text i _ hB])
  refine ⟨?_, ?_, ?_, ?_, ?_, ?_, by decide⟩
  · intro text i out hlen hs
    simp [parseKeywords, parseKeyword, hs, hlen]
  · intro text i out hlen hs
    have h4 := take4 text i _ hs
    simp [parseKeywords, parseKeyword, hs, h4, hlen,
      Nat.le_trans (by omega : 4 ≤ 5) hlen]
  · intro text i out hlen hs
    have hf1 := rej5 text i (['f','a','l','s','e']) (by rw [hs]; decide)
    have hf2 := rej5 text i (['F','a','l','s','e']) (by rw [hs]; decide)
    simp [parseKeywords, parseKeyword, hs, hlen, hf1, hf2]
  · intro text i out hlen hs
    have hf1 := rej5 text i (['f','a','l','s','e']) (by rw [hs]; decide)
    have hf2 := rej5 text i (['F','a','l','s','e']) (by rw [hs]; decide)
    simp [parseKeywords, parseKeyword, hs, hlen, hf1, hf2]
  · intro text i out hlen hs
    have h4 := take4 text i _ hs
    simp [parseKeywords, parseKeyword, hs, h4, hlen,
      Nat.le_trans (by omega : 4 ≤ 5) hlen]
  · intro text i out hlen hs
    have hf1 := rej5 text i (['f','a','l','s','e']) (by rw [hs]; decide)
    have hf2 := rej5 text i (['F','a','l','s','e']) (by rw [hs]; decide)
    simp [parseKeywords, parseKeyword, hs, hlen, hf1, hf2]

/-- Claim C10 witness: `truex` spells `true` at offset 0, so
`parseKeywords` consumes exactly four runes and emits `true`. -/
theorem C10_witness :
    ((("truex").toList).length - 0 ≥ 4 ∧
      runeSlice (("truex").toList) 0 4 = ("true").toList) ∧
    parseKeywords (("truex").toList) 0 [] = (true, 4, [] ++ gs ("true")) :=
  ⟨⟨by decide, by decide⟩,
    C10_keyword_prefix_no_boundary.1 (("truex").toList) 0 [] (by decide)
      (by decide)⟩

theorem getD_drop' (l : List UInt8) (n m : Nat) (d : UInt8) :
    (l.drop n).getD m d = l.getD (n+m) d := by
  simp [List.getD_eq_getElem?_getD, List.getElem?_drop]

theorem goMatchAt_single (s : GoStr) (b : UInt8) (k : Nat) :
    goMatchAt s [b] k = true ↔ (k < s.length ∧ s.getD k 0 = b) := by
  unfold goMatchAt goStartsWith
  cases hd : s.drop k with
  | nil =>
    have hk : s.length ≤ k := by
      have hlen := congrArg List.length hd
      simp at hlen
      omega
    have hfalse : ([b].isPrefixOf ([] : List UInt8)) = false := rfl
    rw [hfalse]
    constructor
    · intro h
      exact absurd h (by simp)
    · rintro ⟨h1, -⟩
      exact absurd h1 (by omega)
  | cons x xs =>
    have hk : k < s.length := by
      by_contra hk
      rw [List.drop_eq_nil_of_le (Nat.le_of_not_lt hk)] at hd
      cases hd
    have hx : s.getD k 0 = x := by
      have h0 := getD_drop' s k 0 0
      rw [hd] at h0
      simpa using h0.symm
    rw [List.isPrefixOf_cons₂, hx]
    simp [hk]
    exact eq_comm

theorem goLastIndexAux_spec (s : GoStr) (b : UInt8) (p : Nat)
    (hp : p < s.length) (hb : s.getD p 0 = b) :
    ∀ k, p ≤ k →
      (∀ j, p < j → j ≤ k → s.getD j 0 ≠ b) →
      goLastIndexAux s [b] k = Int.ofNat p := by
  intro k
  induction k with
  | zero =>
    intro hpk _
    have hp0 : p = 0 := Nat.le_zero.mp hpk
    subst hp0
    unfold goLastIndexAux
    rw [if_pos ((goMatchAt_single s b 0).mpr ⟨hp, hb⟩)]
    rfl
  | succ k ih =>
    intro hpk hnone
    unfold goLastIndexAux
    by_cases hpe : p = k + 1
    · subst hpe
      rw [if_pos ((goMatchAt_single s b (k+1)).mpr ⟨hp, hb⟩)]
    · have hple : p ≤ k := by omega
      have hm : ¬ goMatchAt s [b] (k+1) = true := by
        intro hmt
        obtain ⟨_, h2⟩ := (goMatchAt_single s b (k+1)).mp hmt
        exact hnone (k+1) (by omega) (Nat.le_refl _) h2
      rw [if_neg hm]
      exact ih hple (fun j hj hjk => hnone j hj (by omega))

theorem goLastIndex_last_byte (pre content : GoStr) (b : UInt8)
    (hb : ¬ b ∈ content) :
    goLastIndex (pre ++ b :: content) [b] = Int.ofNat pre.length := by
  set s := pre ++ b :: content with hs
  have hlen : s.length = pre.length + content.length + 1 := by
    simp [hs]
    omega
  have hp : pre.length < s.length := by omega
  have hgd : s.getD pre.length 0 = b := by
    rw [hs, List.getD_eq_getElem?_getD,
      List.getElem?_append_right (Nat.le_refl _)]
    simp
  have hnone : ∀ j, pre.length < j → j ≤ s.length - 1 →
      s.getD j 0 ≠ b := by
    intro j h1 h2 heq
    have hj : j - pre.length - 1 < content.length := by omega
    have hval : s.getD j 0 = content.getD (j - pre.length - 1) 0 := by
      rw [hs, List.getD_eq_getElem?_getD,
        List.getElem?_append_right (by omega)]
      have hidx : j - pre.length = (j - pre.length - 1) + 1 := by omega
      rw [hidx, List.getElem?_cons_succ, ← List.getD_eq_getElem?_getD]
      norm_num
    have hmem : content.getD (j - pre.length - 1) 0 ∈ content := by
      rw [List.getD_eq_getElem _ _ hj]
      exact List.getElem_mem hj
    rw [hval] at heq
    exact hb (heq ▸ hmem)
  unfold goLastIndex
  rw [if_pos (by simpa using Nat.one_le_iff_ne_zero.mpr (by omega))]
  have := goLastIndexAux_spec s b pre.length hp hgd (s.length - 1)
    (by omega) hnone
  simpa using this

theorem cleanTrailing_removes (pre content : GoStr)
    (hq : ¬ (0x22 : UInt8) ∈ content) (hlen : 2 ≤ content.length) :
    cleanTrailingCommaInString (pre ++ [0x22] ++ content ++ [0x2c, 0x22]) =
      pre ++ [0x22] ++ content ++ [0x22] := by
  have hA : pre ++ [0x22] ++ content = pre ++ (0x22 : UInt8) :: content := by
    simp
  unfold cleanTrailingCommaInString
  have hsufeq : gs (",\"") = [0x2c, 0x22] := by decide
  have hsuf : goHasSuffix (pre ++ [0x22] ++ content ++ [0x2c, 0x22])
      (gs (",\"")) = true := by
    rw [hsufeq]
    simp [goHasSuffix, List.isSuffixOf]
  rw [if_pos hsuf]
  have hlentot : (pre ++ [0x22] ++ content ++ [0x2c, 0x22]).length - 2 =
      (pre ++ [0x22] ++ content).length := by
    simp
    omega
  rw [hlentot, List.take_left]
  have hq22 : gs ("\"") = [(0x22 : UInt8)] := by decide
  rw [hA]
  simp only [hq22, goLastIndex_last_byte pre content (0x22 : UInt8) hq]
  split
  · simp
  · rename_i hcon
    exfalso
    apply hcon
    constructor
    · intro hcon2
      cases hcon2
    · simp
      omega

theorem cleanTrailing_keeps (pre content : GoStr)
    (hq : ¬ (0x22 : UInt8) ∈ content) (hlen : content.length ≤ 1) :
    cleanTrailingCommaInString (pre ++ [0x22] ++ content ++ [0x2c, 0x22]) =
      pre ++ [0x22] ++ content ++ [0x2c, 0x22] := by
  have hA : pre ++ [0x22] ++ content = pre ++ (0x22 : UInt8) :: content := by
    simp
  unfold cleanTrailingCommaInString
  have hsufeq : gs (",\"") = [0x2c, 0x22] := by decide
  have hsuf : goHasSuffix (pre ++ [0x22] ++ content ++ [0x2c, 0x22])
      (gs (",\"")) = true := by
    rw [hsufeq]
    simp [goHasSuffix, List.isSuffixOf]
  rw [if_pos hsuf]
  have hlentot : (pre ++ [0x22] ++ content ++ [0x2c, 0x22]).length - 2 =
      (pre ++ [0x22] ++ content).length := by
    simp
    omega
  rw [hlentot, List.take_left]
  have hq22 : gs ("\"") = [(0x22 : UInt8)] := by decide
  rw [hA]
  simp only [hq22, goLastIndex_last_byte pre content (0x22 : UInt8) hq]
  split
  · rename_i hcon
    exfalso
    obtain ⟨-, hgt⟩ := hcon
    simp at hgt
    omega
  · rfl

/-- Claim C8 counterexample: in `["a,"]` the parsed string's content
`a,` has more than one character, so by the claim the comma should be
removed (giving `["a"]`); the code leaves the document unchanged. -/
theorem C8_counterexample_two_char_content_kept :
    Repair 200 ("[\"a,\"]") = some (gs ("[\"a,\"]"), none) ∧
    (gs ("a,")).length > 1 ∧
    Repair 200 ("[\"a,\"]") ≠ some (gs ("[\"a\"]"), none) := by
  refine ⟨by decide, by decide, by decide⟩

/-- Claim C8 (amended): the array parser's comma cleanup removes a comma
sitting immediately before a string's closing quote only when the string
content, the leaked comma included, is more than TWO characters
(equivalently, more than one character besides the comma); with content
of at most one character besides the comma the output is untouched — in
particular the standalone one-character comma string in `[","]` is
preserved, while `["ab,"]` is rewritten. -/
theorem C8_amended_cleanup_threshold :
    (∀ (pre content : GoStr), ¬ (0x22 : UInt8) ∈ content →
      2 ≤ content.length →
      cleanTrailingCommaInString (pre ++ [0x22] ++ content ++ [0x2c, 0x22]) =
        pre ++ [0x22] ++ content ++ [0x22]) ∧
    (∀ (pre content : GoStr), ¬ (0x22 : UInt8) ∈ content →
      content.length ≤ 1 →
      cleanTrailingCommaInString (pre ++ [0x22] ++ content ++ [0x2c, 0x22]) =
        pre ++ [0x22] ++ content ++ [0x2c, 0x22]) ∧
    Repair 200 ("[\",\"]") = some (gs ("[\",\"]"), none) ∧
    Repair 200 ("[\"ab,\"]") = some (gs ("[\"ab\"]"), none) :=
  ⟨cleanTrailing_removes, cleanTrailing_keeps, by decide, by decide⟩

/-- Claim C8 witness: with `pre = [`, content `ab` (quote-free, length
two), the cleanup removes the comma. -/
theorem C8_witness :
    (¬ (0x22 : UInt8) ∈ gs ("ab") ∧ 2 ≤ (gs ("ab")).length) ∧
    cleanTrailingCommaInString (gs ("[") ++ [0x22] ++ gs ("ab") ++
      [0x2c, 0x22]) = gs ("[") ++ [0x22] ++ gs ("ab") ++ [0x22] :=
  ⟨⟨by decide, by decide⟩,
    C8_amended_cleanup_threshold.1 (gs ("[")) (gs ("ab")) (by decide)
      (by decide)⟩

/-! ## Machinery for claim C5: inversion of the result monad and
stuck-state lemmas -/

@[simp] theorem res_ok_bind {α β : Type} (a : α) (k : α → Res β) :
    (Res.ok a >>= k) = k a := rfl

@[simp] theorem res_err_bind {α β : Type} (e : RepairError) (i : Nat)
    (o : GoStr) (k : α → Res β) :
    (Res.err e i o >>= k) = Res.err e i o := rfl

@[simp] theorem res_oof_bind {α β : Type} (k : α → Res β) :
    ((Res.oof : Res α) >>= k) = (Res.oof : Res β) := rfl

@[simp] theorem res_pure_eq {α : Type} (a : α) :
    (pure a : Res α) = Res.ok a := rfl

theorem bind_ok_inv {α β : Type} {x : Res α} {k : α → Res β} {v : β}
    (h : (x >>= k) = .ok v) : ∃ a, x = .ok a ∧ k a = .ok v := by
  cases x with
  | ok a => exact ⟨a, rfl, h⟩
  | err e i o => simp at h
  | oof => simp at h

theorem char_le_iff (a b : Char) : a ≤ b ↔ a.toNat ≤ b.toNat := Iff.rfl

theorem char_eq_iff (a b : Char) : a = b ↔ a.toNat = b.toNat := by
  constructor
  · intro h; rw [h]
  · intro h; exact Char.ext (UInt32.ext h)

theorem char_eq_toNat (c d : Char) (n : Nat) (h : d.toNat = n) :
    (c = d) ↔ c.toNat = n := by rw [char_eq_iff, h]

theorem le_char_toNat (d c : Char) (n : Nat) (h : d.toNat = n) :
    (d ≤ c) ↔ n ≤ c.toNat := by rw [char_le_iff, h]

theorem char_le_toNat (c d : Char) (n : Nat) (h : d.toNat = n) :
    (c ≤ d) ↔ c.toNat ≤ n := by rw [char_le_iff, h]

/-- The quote predicate as numeric code-point facts. -/
theorem isQuote_toNat (c : Char) :
    isQuote c = true ↔
    (c.toNat = 0x22 ∨ c.toNat = 0x201c ∨ c.toNat = 0x201d ∨
     c.toNat = 0x27 ∨ c.toNat = 0x2018 ∨ c.toNat = 0x2019 ∨
     c.toNat = 0x60 ∨ c.toNat = 0xb4) := by
  simp only [isQuote, isDoubleQuoteLike, isQuoteAux1, isSingleQuoteLike,
    Bool.or_eq_true, decide_eq_true_eq,
    char_eq_toNat c codeDoubleQuote 0x22 (by decide),
    char_eq_toNat c codeDoubleQuoteLeft 0x201c (by decide),
    char_eq_toNat c codeDoubleQuoteRight 0x201d (by decide),
    char_eq_toNat c codeQuote 0x27 (by decide),
    char_eq_toNat c codeQuoteLeft 0x2018 (by decide),
    char_eq_toNat c codeQuoteRight 0x2019 (by decide),
    char_eq_toNat c codeGraveAccent 0x60 (by decide),
    char_eq_toNat c codeAcuteAccent 0xb4 (by decide)]
  tauto

/-- The unquoted-string-delimiter predicate as numeric code-point
facts. -/
theorem isUnquotedStringDelimiter_toNat (c : Char) :
    isUnquotedStringDelimiter c = true ↔
    (c.toNat = 0x2c ∨ c.toNat = 0x5b ∨ c.toNat = 0x5d ∨ c.toNat = 0x2f ∨
     c.toNat = 0x7b ∨ c.toNat = 0x7d ∨ c.toNat = 0xa ∨
     c.toNat = 0x2b) := by
  simp only [isUnquotedStringDelimiter, Bool.or_eq_true, decide_eq_true_eq,
    char_eq_toNat c (',') 0x2c (by decide),
    char_eq_toNat c ('[') 0x5b (by decide),
    char_eq_toNat c (']') 0x5d (by decide),
    char_eq_toNat c ('/') 0x2f (by decide),
    char_eq_toNat c codeOpeningBrace 0x7b (by decide),
    char_eq_toNat c codeClosingBrace 0x7d (by decide),
    char_eq_toNat c codeNewline 0xa (by decide),
    char_eq_toNat c ('+') 0x2b (by decide)]
  tauto

/-- The character classes admitted by `isStartOfValue`, as numeric
code-point facts. -/
theorem isStartOfValue_toNat (c : Char) (h : isStartOfValue c = true) :
    c.toNat = 0x7b ∨ c.toNat = 0x5b ∨ c.toNat = 0x5f ∨ c.toNat = 0x2d ∨
    (0x61 ≤ c.toNat ∧ c.toNat ≤ 0x7a) ∨ (0x41 ≤ c.toNat ∧ c.toNat ≤ 0x5a) ∨
    (0x30 ≤ c.toNat ∧ c.toNat ≤ 0x39) ∨ c.toNat = 0x22 ∨
    c.toNat = 0x201c ∨ c.toNat = 0x201d ∨ c.toNat = 0x27 ∨
    c.toNat = 0x2018 ∨ c.toNat = 0x2019 ∨ c.toNat = 0x60 ∨
    c.toNat = 0xb4 := by
  simp only [isStartOfValue, Bool.or_eq_true, Bool.and_eq_true,
    decide_eq_true_eq, isQuote_toNat,
    char_eq_toNat c codeOpeningBrace 0x7b (by decide),
    char_eq_toNat c ('[') 0x5b (by decide),
    char_eq_toNat c ('_') 0x5f (by decide),
    char_eq_toNat c ('-') 0x2d (by decide),
    le_char_toNat (Char.ofNat 0x61) c 0x61 (by decide),
    char_le_toNat c (Char.ofNat 0x7a) 0x7a (by decide),
    le_char_toNat (Char.ofNat 0x41) c 0x41 (by decide),
    char_le_toNat c (Char.ofNat 0x5a) 0x5a (by decide),
    le_char_toNat (Char.ofNat 0x30) c 0x30 (by decide),
    char_le_toNat c (Char.ofNat 0x39) 0x39 (by decide)] at h
  tauto

/-- A value-start character is not whitespace, not special whitespace,
not a slash and not a backslash. -/
theorem isStartOfValue_not_ws (c : Char) (h : isStartOfValue c = true) :
    isWhitespace c = false ∧ isSpecialWhitespace c = false ∧
    c ≠ codeSlash ∧ c ≠ codeBackslash := by
  have hn := isStartOfValue_toNat c h
  refine ⟨?_, ?_, ?_, ?_⟩
  · rw [Bool.eq_false_iff]
    simp only [isWhitespace, Bool.or_eq_true, decide_eq_true_eq, ne_eq,
      char_eq_toNat c codeSpace 0x20 (by decide),
      char_eq_toNat c codeNewline 0xa (by decide),
      char_eq_toNat c codeTab 0x9 (by decide),
      char_eq_toNat c codeReturn 0xd (by decide)]
    omega
  · rw [Bool.eq_false_iff]
    simp only [isSpecialWhitespace, Bool.or_eq_true, Bool.and_eq_true,
      decide_eq_true_eq, ne_eq,
      char_eq_toNat c codeNonBreakingSpace 0xa0 (by decide),
      le_char_toNat codeEnQuad c 0x2000 (by decide),
      char_le_toNat c codeHairSpace 0x200a (by decide),
      char_eq_toNat c codeNarrowNoBreakSpace 0x202f (by decide),
      char_eq_toNat c codeMediumMathematicalSpace 0x205f (by decide),
      char_eq_toNat c codeIdeographicSpace 0x3000 (by decide)]
    omega
  · rw [ne_eq, char_eq_toNat c codeSlash 0x2f (by decide)]
    omega
  · rw [ne_eq, char_eq_toNat c codeBackslash 0x5c (by decide)]
    omega

/-- Case split on a value-start character: opening brace, opening
bracket, a quote, or a plain token character (neither an unquoted-string
delimiter, nor a quote, nor a backslash). -/
theorem isStartOfValue_cases (c : Char) (h : isStartOfValue c = true) :
    c = codeOpeningBrace ∨ c = codeOpeningBracket ∨ isQuote c = true ∨
    (isUnquotedStringDelimiter c = false ∧ isQuote c = false ∧
     c ≠ codeBackslash) := by
  have hn := isStartOfValue_toNat c h
  rw [char_eq_toNat c codeOpeningBrace 0x7b (by decide),
    char_eq_toNat c codeOpeningBracket 0x5b (by decide), isQuote_toNat]
  have hd : (isUnquotedStringDelimiter c = false) ↔
      ¬(isUnquotedStringDelimiter c = true) := Bool.eq_false_iff
  have hq : (isQuote c = false) ↔ ¬(isQuote c = true) := Bool.eq_false_iff
  rw [hd, hq, isUnquotedStringDelimiter_toNat, isQuote_toNat, ne_eq,
    char_eq_toNat c codeBackslash 0x5c (by decide)]
  omega

theorem wsExceptNewline_of_ws (c : Char) (hw : isWhitespace c = false) :
    isWhitespaceExceptNewline c = false := by
  unfold isWhitespace at hw
  unfold isWhitespaceExceptNewline
  simp at hw ⊢
  tauto

theorem parseWhitespace_stuck (text : List Char) (i : Nat) (out : GoStr)
    (sn : Bool) (h1 : i < text.length)
    (hw : isWhitespace (charAt text i) = false)
    (hsw : isSpecialWhitespace (charAt text i) = false) :
    parseWhitespace text i out sn = (false, i, out) := by
  have hd : text.drop i = charAt text i :: text.drop (i+1) := by
    rw [charAt, List.drop_eq_getElem_cons h1, List.getD_eq_getElem _ _ h1]
  have hiw : ((if sn then isWhitespace else isWhitespaceExceptNewline)
      (charAt text i)) = false := by
    cases sn
    · simpa using wsExceptNewline_of_ws _ hw
    · simpa using hw
  simp only [parseWhitespace, hd, parseWhitespaceAux, hiw, hsw]
  simp

theorem parseComment_stuck (text : List Char) (i : Nat)
    (h : charAt text i ≠ codeSlash) :
    parseComment text i = (false, i) := by
  unfold parseComment
  split
  · rw [if_neg (fun hc => h hc.1), if_neg (fun hc => h hc.1)]
  · rfl

theorem wsc_stuck (f : Nat) (text : List Char) (i : Nat) (out : GoStr)
    (sn : Bool) (r : Bool × Nat × GoStr) (h1 : i < text.length)
    (h2 : isWhitespace (charAt text i) = false)
    (h3 : isSpecialWhitespace (charAt text i) = false)
    (h4 : charAt text i ≠ codeSlash)
    (hr : parseWhitespaceAndSkipComments f text i out sn = .ok r) :
    r = (false, i, out) := by
  cases f with
  | zero => exact absurd hr (by simp [parseWhitespaceAndSkipComments])
  | succ f =>
    rw [parseWhitespaceAndSkipComments] at hr
    rw [parseWhitespace_stuck text i out sn h1 h2 h3] at hr
    simp only [] at hr
    cases f with
    | zero => simp [wscCommentLoop] at hr
    | succ f2 =>
      rw [wscCommentLoop.eq_def] at hr
      simp only [parseComment_stuck text i h4] at hr
      simp at hr
      exact hr.symm

theorem drop_charAt_cons (text : List Char) (i : Nat)
    (h : i < text.length) :
    text.drop i = charAt text i :: text.drop (i+1) := by
  rw [charAt, List.drop_eq_getElem_cons h, List.getD_eq_getElem _ _ h]

theorem countWhileChar_pos (p : Char → Bool) (text : List Char) (i : Nat)
    (h1 : i < text.length) (h2 : p (charAt text i) = true) :
    1 ≤ countWhileChar p (text.drop i) := by
  rw [drop_charAt_cons text i h1]
  unfold countWhileChar
  rw [h2]
  simp

theorem isFunctionNameChar_of_start (c : Char)
    (h : isFunctionNameCharStart c = true) : isFunctionNameChar c = true := by
  unfold isFunctionNameChar
  rw [h]
  rfl

/-- parseRegex declines only with the state unchanged. -/
theorem parseRegex_decline (text : List Char) (i : Nat) (out : GoStr)
    (i' : Nat) (out' : GoStr)
    (h : parseRegex text i out = (false, i', out')) :
    i' = i ∧ out' = out := by
  unfold parseRegex at h
  split at h
  · simp at h
  · simp only [Prod.mk.injEq] at h
    exact ⟨h.2.1.symm, h.2.2.symm⟩

/-- A single keyword matcher declines only with the state unchanged. -/
theorem parseKeyword_decline (text : List Char) (i : Nat) (out : GoStr)
    (n : List Char) (v : GoStr) (i' : Nat) (out' : GoStr)
    (h : parseKeyword text i out n v = (false, i', out')) :
    i' = i ∧ out' = out := by
  unfold parseKeyword at h
  split at h
  · simp at h
  · simp only [Prod.mk.injEq] at h
    exact ⟨h.2.1.symm, h.2.2.symm⟩

/-- parseKeywords declines only with the state unchanged. -/
theorem parseKeywords_decline (text : List Char) (i : Nat) (out : GoStr)
    (i' : Nat) (out' : GoStr)
    (h : parseKeywords text i out = (false, i', out')) :
    i' = i ∧ out' = out := by
  unfold parseKeywords at h
  simp only [] at h
  split at h
  · rename_i hc
    rw [h] at hc
    simp at hc
  · split at h
    · rename_i hc
      rw [h] at hc
      simp at hc
    · split at h
      · rename_i hc
        rw [h] at hc
        simp at hc
      · split at h
        · rename_i hc
          rw [h] at hc
          simp at hc
        · split at h
          · rename_i hc
            rw [h] at hc
            simp at hc
          · exact parseKeyword_decline _ _ _ _ _ _ _ h

/-- The token-emission tail of parseNumber declines only with the state
unchanged. -/
theorem parseNumberFinish_decline (text : List Char) (start j : Nat)
    (out : GoStr) (i' : Nat) (out' : GoStr) (hle : start ≤ j)
    (h : parseNumberFinish text start j out = (false, i', out')) :
    i' = start ∧ out' = out := by
  unfold parseNumberFinish at h
  simp only [] at h
  split at h
  · simp only [Prod.mk.injEq] at h
    exact ⟨h.2.1.symm, h.2.2.symm⟩
  · split at h
    · split at h <;> simp at h
    · rename_i hng
      simp only [Prod.mk.injEq] at h
      refine ⟨?_, h.2.2.symm⟩
      omega

/-- The exponent phase of parseNumber declines only with the state
unchanged. -/
theorem parseNumberExp_decline (text : List Char) (start j : Nat)
    (out : GoStr) (i' : Nat) (out' : GoStr) (hle : start ≤ j)
    (h : parseNumberExp text start j out = (false, i', out')) :
    i' = start ∧ out' = out := by
  unfold parseNumberExp at h
  simp only [] at h
  split at h
  · split at h
    all_goals
      split at h
      · simp at h
      · split at h
        · simp only [Prod.mk.injEq] at h
          exact ⟨h.2.1.symm, h.2.2.symm⟩
        · refine parseNumberFinish_decline text start _ out i' out' ?_ h
          unfold skipDigits
          omega
  · exact parseNumberFinish_decline text start j out i' out' hle h

/-- The fraction phase of parseNumber declines only with the state
unchanged. -/
theorem parseNumberDot_decline (text : List Char) (start j : Nat)
    (out : GoStr) (i' : Nat) (out' : GoStr) (hle : start ≤ j)
    (h : parseNumberDot text start j out = (false, i', out')) :
    i' = start ∧ out' = out := by
  unfold parseNumberDot at h
  simp only [] at h
  split at h
  · split at h
    · simp at h
    · split at h
      · simp only [Prod.mk.injEq] at h
        exact ⟨h.2.1.symm, h.2.2.symm⟩
      · refine parseNumberExp_decline text start _ out i' out' ?_ h
        unfold skipDigits
        omega
  · exact parseNumberExp_decline text start j out i' out' hle h

/-- parseNumber declines only with the state unchanged. -/
theorem parseNumber_decline (text : List Char) (i : Nat) (out : GoStr)
    (i' : Nat) (out' : GoStr)
    (h : parseNumber text i out = (false, i', out')) :
    i' = i ∧ out' = out := by
  unfold parseNumber at h
  simp only [] at h
  split at h
  · split at h
    · simp at h
    · split at h
      · simp only [Prod.mk.injEq] at h
        exact ⟨h.2.1.symm, h.2.2.symm⟩
      · refine parseNumberDot_decline text i _ out i' out' ?_ h
        unfold skipDigits
        omega
  · refine parseNumberDot_decline text i _ out i' out' ?_ h
    unfold skipDigits
    omega

/-- When the unquoted-string tail declines, the output is unchanged and
the cursor result is squeezed between `iCur` and `start`. -/
theorem unquotedStringTail_decline (text : List Char) (start iCur : Nat)
    (out : GoStr) (ik : Bool) (i' : Nat) (out' : GoStr)
    (h : unquotedStringTail text start iCur out ik = (false, i', out')) :
    out' = out ∧ i' ≤ start ∧ iCur ≤ i' := by
  simp only [unquotedStringTail] at h
  split at h
  all_goals
    split at h
    · simp at h
    · rename_i hng
      simp only [Prod.mk.injEq] at h
      obtain ⟨-, h1, h2⟩ := h
      subst h1
      exact ⟨h2.symm, by omega, Nat.le_add_right _ _⟩

/-- The unquoted-string tail succeeds once the scan start is already past
the checkpoint. -/
theorem unquotedStringTail_fst_true (text : List Char) (start iCur : Nat)
    (out : GoStr) (ik : Bool) (hlt : start < iCur) :
    (unquotedStringTail text start iCur out ik).1 = true := by
  simp only [unquotedStringTail]
  split
  all_goals
    split
    · rfl
    · rename_i hng
      exfalso
      omega

theorem charAt_of_runeSlice_cons (text : List Char) (start k : Nat)
    (c : Char) (rest : List Char)
    (h : runeSlice text start (start + k) = c :: rest)
    (hlen : start < text.length) : charAt text start = c := by
  rw [runeSlice_add] at h
  rw [drop_charAt_cons text start hlen] at h
  rcases k with - | k
  · simp at h
  · rw [List.take_succ_cons] at h
    exact (List.cons.injEq _ _ _ _ ▸ h).1

/-- The unquoted-string tail succeeds from a standing start on a plain
token character. -/
theorem unquotedStringTail_plain_true (text : List Char) (start : Nat)
    (out : GoStr) (h2 : start < text.length)
    (hd : isUnquotedStringDelimiter (charAt text start) = false)
    (hq : isQuote (charAt text start) = false) :
    (unquotedStringTail text start start out false).1 = true := by
  simp only [unquotedStringTail]
  split
  · rename_i hurl
    simp only [Bool.not_false, Bool.true_and, Bool.or_eq_true,
      Bool.and_eq_true, decide_eq_true_eq] at hurl
    have hc : isURLChar (charAt text start) = true := by
      rcases hurl with (⟨h8, hs⟩ | ⟨h7, hs⟩) | ⟨h6, hs⟩
      · rw [charAt_of_runeSlice_cons text start 8 ('h')
          (("ttps://").toList) (by rw [hs]; rfl) h2]
        decide
      · rw [charAt_of_runeSlice_cons text start 7 ('h')
          (("ttp://").toList) (by rw [hs]; rfl) h2]
        decide
      · rw [charAt_of_runeSlice_cons text start 6 ('f')
          (("tp://").toList) (by rw [hs]; rfl) h2]
        decide
    have := countWhileChar_pos isURLChar text start h2 hc
    split
    · rfl
    · rename_i hng
      exfalso
      omega
  · have := countWhileChar_pos (fun c => !(isUnquotedStringDelimiter c) &&
      !(isQuote c) && !(false && decide (c = codeColon))) text start h2
      (by simp [hd, hq])
    split
    · rfl
    · rename_i hng
      exfalso
      omega

/-- parseUnquotedStringWithMode declines only with the state
unchanged. -/
theorem parseUnquoted_decline (f : Nat) (text : List Char) (i : Nat)
    (out : GoStr) (ik : Bool) (i' : Nat) (out' : GoStr)
    (h : parseUnquotedStringWithMode f text i out ik =
      .ok (false, i', out')) :
    i' = i ∧ out' = out := by
  cases f with
  | zero =>
    rw [parseUnquotedStringWithMode.eq_def] at h
    simp at h
  | succ f =>
    rw [parseUnquotedStringWithMode.eq_def] at h
    simp only [] at h
    split at h
    · simp only [res_pure_eq, Res.ok.injEq, Prod.mk.injEq] at h
      exact ⟨h.2.1.symm, h.2.2.symm⟩
    · split at h
      · rename_i hge hfn
        split at h
        · split at h
          · simp at h
          · simp at h
          · simp at h
        · simp only [res_pure_eq, Res.ok.injEq] at h
          have hcnt := countWhileChar_pos isFunctionNameChar text i
            (by omega) (isFunctionNameChar_of_start _ hfn)
          obtain ⟨ho, hA, hB⟩ :=
            unquotedStringTail_decline text i _ out ik i' out' h
          exfalso
          omega
      · simp only [res_pure_eq, Res.ok.injEq] at h
        obtain ⟨ho, hA, hB⟩ :=
          unquotedStringTail_decline text i i out ik i' out' h
        exact ⟨by omega, ho⟩

/-- parseUnquotedStringWithMode in value mode succeeds on a plain token
character. -/
theorem parseUnquoted_plain_true (f : Nat) (text : List Char) (i : Nat)
    (out : GoStr) (b : Bool) (i' : Nat) (out' : GoStr)
    (h1 : i < text.length)
    (hd : isUnquotedStringDelimiter (charAt text i) = false)
    (hq : isQuote (charAt text i) = false)
    (h : parseUnquotedStringWithMode f text i out false =
      .ok (b, i', out')) :
    b = true := by
  cases f with
  | zero =>
    rw [parseUnquotedStringWithMode.eq_def] at h
    simp at h
  | succ f =>
    rw [parseUnquotedStringWithMode.eq_def] at h
    simp only [] at h
    split at h
    · rename_i hge
      exact absurd h1 (by omega)
    · split at h
      · rename_i hge hfn
        split at h
        · split at h
          · simp at h
          · simp only [res_pure_eq, Res.ok.injEq, Prod.mk.injEq] at h
            exact h.1.symm
          · simp only [res_pure_eq, Res.ok.injEq, Prod.mk.injEq] at h
            exact h.1.symm
        · simp only [res_pure_eq, Res.ok.injEq] at h
          have hcnt := countWhileChar_pos isFunctionNameChar text i
            (by omega) (isFunctionNameChar_of_start _ hfn)
          have ht := unquotedStringTail_fst_true text i
            (i + countWhileChar isFunctionNameChar (text.drop i)) out false
            (by omega)
          rw [h] at ht
          exact ht
      · simp only [res_pure_eq, Res.ok.injEq] at h
        have ht := unquotedStringTail_plain_true text i out h1 hd hq
        rw [h] at ht
        exact ht

/-- parseObject away from an opening brace returns a decline with the
state unchanged. -/
theorem parseObject_not_brace (f : Nat) (text : List Char) (i : Nat)
    (out : GoStr) (r : Bool × Nat × GoStr)
    (hne : ¬(i < text.length ∧ charAt text i = codeOpeningBrace))
    (h : parseObject f text i out = .ok r) : r = (false, i, out) := by
  cases f with
  | zero =>
    rw [parseObject.eq_def] at h
    simp at h
  | succ f =>
    rw [parseObject.eq_def] at h
    simp only [] at h
    rw [if_neg hne] at h
    simp only [res_pure_eq, Res.ok.injEq] at h
    exact h.symm

/-- parseArray away from an opening bracket returns a decline with the
state unchanged. -/
theorem parseArray_not_bracket (f : Nat) (text : List Char) (i : Nat)
    (out : GoStr) (r : Bool × Nat × GoStr) (hlt : i < text.length)
    (hne : charAt text i ≠ codeOpeningBracket)
    (h : parseArray f text i out = .ok r) : r = (false, i, out) := by
  cases f with
  | zero =>
    rw [parseArray.eq_def] at h
    simp at h
  | succ f =>
    rw [parseArray.eq_def] at h
    simp only [] at h
    rw [if_neg (show ¬(i ≥ text.length) by omega), if_neg hne] at h
    simp only [res_pure_eq, Res.ok.injEq] at h
    exact h.symm

/-- parseArray declines only with the state unchanged. -/
theorem parseArray_decline (f : Nat) (text : List Char) (i : Nat)
    (out : GoStr) (i' : Nat) (out' : GoStr)
    (h : parseArray f text i out = .ok (false, i', out')) :
    i' = i ∧ out' = out := by
  cases f with
  | zero =>
    rw [parseArray.eq_def] at h
    simp at h
  | succ f =>
    rw [parseArray.eq_def] at h
    simp only [] at h
    split at h
    · simp only [res_pure_eq, Res.ok.injEq, Prod.mk.injEq] at h
      exact ⟨h.2.1.symm, h.2.2.symm⟩
    · split at h
      · obtain ⟨⟨b1, i1, out2⟩, -, h⟩ := bind_ok_inv h
        simp only [] at h
        rcases hsc : skipCharacter text i1 codeComma with ⟨sc, i2⟩
        rw [hsc] at h
        simp only [] at h
        split at h
        · obtain ⟨⟨b2, ia, outa⟩, -, h⟩ := bind_ok_inv h
          simp only [res_pure_eq, res_ok_bind] at h
          obtain ⟨⟨i4, out4⟩, -, h⟩ := bind_ok_inv h
          split at h <;> simp at h
        · simp only [res_pure_eq, res_ok_bind] at h
          obtain ⟨⟨i4, out4⟩, -, h⟩ := bind_ok_inv h
          split at h <;> simp at h
      · simp only [res_pure_eq, Res.ok.injEq, Prod.mk.injEq] at h
        exact ⟨h.2.1.symm, h.2.2.symm⟩

/-- parseArray at an opening bracket always reports a processed
value. -/
theorem parseArray_at_bracket (f : Nat) (text : List Char) (i : Nat)
    (out : GoStr) (b : Bool) (i' : Nat) (out' : GoStr)
    (h1 : i < text.length) (h2 : charAt text i = codeOpeningBracket)
    (h : parseArray f text i out = .ok (b, i', out')) : b = true := by
  cases f with
  | zero =>
    rw [parseArray.eq_def] at h
    simp at h
  | succ f =>
    rw [parseArray.eq_def] at h
    simp only [] at h
    rw [if_neg (show ¬(i ≥ text.length) by omega), if_pos h2] at h
    obtain ⟨⟨b1, i1, out2⟩, -, h⟩ := bind_ok_inv h
    simp only [] at h
    rcases hsc : skipCharacter text i1 codeComma with ⟨sc, i2⟩
    rw [hsc] at h
    simp only [] at h
    split at h
    · obtain ⟨⟨b2, ia, outa⟩, -, h⟩ := bind_ok_inv h
      simp only [res_pure_eq, res_ok_bind] at h
      obtain ⟨⟨i4, out4⟩, -, h⟩ := bind_ok_inv h
      split at h <;>
        (simp only [res_pure_eq, Res.ok.injEq, Prod.mk.injEq] at h
         exact h.1.symm)
    · simp only [res_pure_eq, res_ok_bind] at h
      obtain ⟨⟨i4, out4⟩, -, h⟩ := bind_ok_inv h
      split at h <;>
        (simp only [res_pure_eq, Res.ok.injEq, Prod.mk.injEq] at h
         exact h.1.symm)

/-- Joint induction: the string loop (with its checkpoint at an opening
quote) and parseString started at a quote never decline — every
successful return reports a processed string. -/
theorem stringQuoteCluster : ∀ f : Nat,
    (∀ (text : List Char) (sd : Bool) (si : Int) (se : Bool)
       (ie : Char → Bool) (mcfp : Bool) (iB oB i : Nat) (str out : GoStr)
       (b : Bool) (i' : Nat) (out' : GoStr),
       iB < text.length → isQuote (charAt text iB) = true →
       stringLoop f text sd si se ie mcfp iB oB i str out =
         .ok (b, i', out') → b = true) ∧
    (∀ (text : List Char) (i : Nat) (out : GoStr) (sd : Bool) (si : Int)
       (b : Bool) (i' : Nat) (out' : GoStr),
       i < text.length → isQuote (charAt text i) = true →
       parseString f text i out sd si = .ok (b, i', out') → b = true) := by
  intro f
  induction f with
  | zero =>
    constructor
    · intro text sd si se ie mcfp iB oB i str out b i' out' h1 h2 h
      exact Res.noConfusion h
    · intro text i out sd si b i' out' h1 h2 h
      exact Res.noConfusion h
  | succ f ih =>
    constructor
    · intro text sd si se ie mcfp iB oB i str out b i' out' h1 h2 h
      rw [stringLoop.eq_def] at h
      dsimp only [] at h
      by_cases hc1 : i ≥ text.length
      · rw [if_pos hc1] at h
        split at h
        · exact ih.2 _ _ _ _ _ _ _ _ h1 h2 h
        · simp only [res_pure_eq, Res.ok.injEq, Prod.mk.injEq] at h
          exact h.1.symm
      · rw [if_neg hc1] at h
        by_cases hc2 : si ≠ -1 ∧ (i : Int) = si
        · rw [if_pos hc2] at h
          simp only [res_pure_eq, Res.ok.injEq, Prod.mk.injEq] at h
          exact h.1.symm
        · rw [if_neg hc2] at h
          by_cases hc3 : ie (charAt text i) = true
          · rw [if_pos hc3] at h
            obtain ⟨⟨b1, iAW, tmpW⟩, -, h⟩ := bind_ok_inv h
            simp only [] at h
            split at h
            · obtain ⟨⟨b3, i3, out3⟩, -, h⟩ := bind_ok_inv h
              simp only [res_pure_eq, Res.ok.injEq, Prod.mk.injEq] at h
              exact h.1.symm
            · split at h
              · exact ih.2 _ _ _ _ _ _ _ _ h1 h2 h
              · split at h
                · exact ih.2 _ _ _ _ _ _ _ _ h1 h2 h
                · exact ih.1 _ _ _ _ _ _ _ _ _ _ _ _ _ _ h1 h2 h
          · rw [if_neg hc3] at h
            by_cases hc4 : sd = true ∧
                isUnquotedStringDelimiter (charAt text i) = true
            · rw [if_pos hc4] at h
              split at h
              all_goals
                simp only [] at h
                obtain ⟨⟨b3, i3, out3⟩, -, h⟩ := bind_ok_inv h
                simp only [res_pure_eq, Res.ok.injEq, Prod.mk.injEq] at h
                exact h.1.symm
            · rw [if_neg hc4] at h
              by_cases hc5 : charAt text i = codeBackslash
              · rw [if_pos hc5] at h
                split at h
                · simp only [res_pure_eq, Res.ok.injEq,
                    Prod.mk.injEq] at h
                  exact h.1.symm
                · split at h
                  · split at h
                    · exact ih.1 _ _ _ _ _ _ _ _ _ _ _ _ _ _ h1 h2 h
                    · exact ih.1 _ _ _ _ _ _ _ _ _ _ _ _ _ _ h1 h2 h
                  · split at h
                    · split at h
                      · split at h
                        · exact ih.1 _ _ _ _ _ _ _ _ _ _ _ _ _ _ h1 h2
                            h
                        · exact ih.1 _ _ _ _ _ _ _ _ _ _ _ _ _ _ h1 h2
                            h
                      · split at h
                        · exact ih.1 _ _ _ _ _ _ _ _ _ _ _ _ _ _ h1 h2
                            h
                        · split at h
                          · split at h
                            · exact ih.1 _ _ _ _ _ _ _ _ _ _ _ _ _ _
                                h1 h2 h
                            · simp at h
                          · split at h
                            · simp at h
                            · simp at h
                    · split at h
                      · simp only [res_pure_eq, Res.ok.injEq,
                          Prod.mk.injEq] at h
                        exact h.1.symm
                      · split at h
                        · exact ih.1 _ _ _ _ _ _ _ _ _ _ _ _ _ _ h1 h2
                            h
                        · exact ih.1 _ _ _ _ _ _ _ _ _ _ _ _ _ _ h1 h2
                            h
              · rw [if_neg hc5] at h
                split at h
                · exact ih.1 _ _ _ _ _ _ _ _ _ _ _ _ _ _ h1 h2 h
                · split at h
                  · exact ih.1 _ _ _ _ _ _ _ _ _ _ _ _ _ _ h1 h2 h
                  · split at h
                    · simp at h
                    · exact ih.1 _ _ _ _ _ _ _ _ _ _ _ _ _ _ h1 h2 h
    · intro text i out sd si b i' out' h1 h2 h
      rw [parseString.eq_def] at h
      simp only [] at h
      split at h
      · rename_i hge
        exact absurd h1 (by omega)
      · split at h
        · rename_i hbs
          rw [hbs] at h2
          exact absurd h2 (by decide)
        · split at h
          · rename_i hq2
            exact ih.1 _ _ _ _ _ _ _ _ _ _ _ _ _ _ hq2.1 hq2.2 h
          · rename_i hq2
            exact absurd ⟨h1, h2⟩ hq2

/-- parseString declines either with the state unchanged, or — when the
character at the cursor is a backslash not followed by a quote — with
the cursor advanced one past the backslash and the output unchanged. -/
theorem parseString_decline (f : Nat) (text : List Char) (i : Nat)
    (out : GoStr) (sd : Bool) (si : Int) (i' : Nat) (out' : GoStr)
    (h : parseString f text i out sd si = .ok (false, i', out')) :
    out' = out ∧ (i' = i ∨ (i' = i + 1 ∧ charAt text i = codeBackslash ∧
      ¬(i + 1 < text.length ∧ isQuote (charAt text (i+1)) = true))) := by
  cases f with
  | zero =>
    exact Res.noConfusion h
  | succ f =>
    rw [parseString.eq_def] at h
    simp only [] at h
    split at h
    · simp only [res_pure_eq, Res.ok.injEq, Prod.mk.injEq] at h
      exact ⟨h.2.2.symm, Or.inl h.2.1.symm⟩
    · rename_i hge
      split at h
      · rename_i hbs
        split at h
        · rename_i hq2
          exact absurd
            ((stringQuoteCluster f).1 _ _ _ _ _ _ _ _ _ _ _ _ _ _ hq2.1
              hq2.2 h) (by simp)
        · rename_i hq2
          simp only [res_pure_eq, Res.ok.injEq, Prod.mk.injEq] at h
          exact ⟨h.2.2.symm, Or.inr ⟨h.2.1.symm, hbs, hq2⟩⟩
      · rename_i hbs
        split at h
        · rename_i hq2
          exact absurd
            ((stringQuoteCluster f).1 _ _ _ _ _ _ _ _ _ _ _ _ _ _ hq2.1
              hq2.2 h) (by simp)
        · rename_i hq2
          simp only [res_pure_eq, Res.ok.injEq, Prod.mk.injEq] at h
          exact ⟨h.2.2.symm, Or.inl h.2.1.symm⟩

/-- Strong induction over the fuel: parseValue started on a value-start
character never declines, and the object-member loop never exits through
its missing-object-value decline branch. -/
theorem valueCluster : ∀ f : Nat,
    (∀ (text : List Char) (i : Nat) (out : GoStr) (b : Bool) (i' : Nat)
       (out' : GoStr), i < text.length →
       isStartOfValue (charAt text i) = true →
       parseValue f text i out = .ok (b, i', out') → b = true) ∧
    (∀ (text : List Char) (i : Nat) (out : GoStr) (init : Bool) (i' : Nat)
       (out' : GoStr),
       objLoop f text i out init ≠ .ok (.declinedValue i' out')) := by
  intro f
  induction f using Nat.strong_induction_on with
  | _ f ih =>
    constructor
    · intro text i out b i' out' hlt hsv h
      cases f with
      | zero => exact Res.noConfusion h
      | succ g =>
        rw [parseValue.eq_def] at h
        dsimp only [] at h
        replace h := bind_ok_inv h
        obtain ⟨⟨b1, i1, out1⟩, hws, h⟩ := h
        simp only [] at h
        obtain ⟨hw, hsp, hsl, hbs⟩ := isStartOfValue_not_ws (charAt text i)
          hsv
        have hst := wsc_stuck g text i out true (b1, i1, out1) hlt hw hsp
          hsl hws
        injection hst with hb1 hst
        injection hst with hi1 ho1
        subst i1
        subst out1
        replace h := bind_ok_inv h
        obtain ⟨⟨pObj, i2, out2⟩, hobj, h⟩ := h
        simp only [] at h
        split at h
        · replace h := bind_ok_inv h
          obtain ⟨⟨b4, i4, out4⟩, -, h⟩ := h
          simp only [res_pure_eq, Res.ok.injEq, Prod.mk.injEq] at h
          exact h.1.symm
        · rename_i hnpo
          rcases isStartOfValue_cases (charAt text i) hsv with hbrace
            | hbracket | hquote | ⟨hdel, hq, hnb⟩
          · exfalso
            cases g with
            | zero => exact Res.noConfusion hobj
            | succ g2 =>
              rw [parseObject.eq_def] at hobj
              dsimp only [] at hobj
              rw [if_pos ⟨hlt, hbrace⟩] at hobj
              replace hobj := bind_ok_inv hobj
              obtain ⟨⟨b5, i5, out5⟩, -, hobj⟩ := hobj
              simp only [] at hobj
              rcases hsc : skipCharacter text i5 codeComma with ⟨sc, i6⟩
              rw [hsc] at hobj
              simp only [] at hobj
              split at hobj
              · replace hobj := bind_ok_inv hobj
                obtain ⟨⟨b6, i7, out7⟩, -, hobj⟩ := hobj
                simp only [res_pure_eq, res_ok_bind] at hobj
                replace hobj := bind_ok_inv hobj
                obtain ⟨r, hol, hobj⟩ := hobj
                cases r with
                | declinedValue i8 out8 =>
                  exact (ih g2 (by omega)).2 text i7 out7 true i8 out8 hol
                | done i8 out8 =>
                  simp only [] at hobj
                  split at hobj
                  · simp only [res_pure_eq, Res.ok.injEq,
                      Prod.mk.injEq] at hobj
                    exact hnpo hobj.1.symm
                  · simp only [res_pure_eq, Res.ok.injEq,
                      Prod.mk.injEq] at hobj
                    exact hnpo hobj.1.symm
              · simp only [res_pure_eq, res_ok_bind] at hobj
                replace hobj := bind_ok_inv hobj
                obtain ⟨r, hol, hobj⟩ := hobj
                cases r with
                | declinedValue i8 out8 =>
                  exact (ih g2 (by omega)).2 text _ _ true i8 out8 hol
                | done i8 out8 =>
                  simp only [] at hobj
                  split at hobj
                  · simp only [res_pure_eq, Res.ok.injEq,
                      Prod.mk.injEq] at hobj
                    exact hnpo hobj.1.symm
                  · simp only [res_pure_eq, Res.ok.injEq,
                      Prod.mk.injEq] at hobj
                    exact hnpo hobj.1.symm
          · have hne : ¬(i < text.length ∧
                charAt text i = codeOpeningBrace) := by
              rintro ⟨-, hcc⟩
              rw [hbracket] at hcc
              exact absurd hcc (by decide)
            have hro := parseObject_not_brace g text i out _ hne hobj
            injection hro with hb2 hro
            injection hro with hi2 ho2
            subst i2
            subst out2
            replace h := bind_ok_inv h
            obtain ⟨⟨pArr, i3, out3⟩, harr, h⟩ := h
            simp only [] at h
            split at h
            · simp only [res_pure_eq, res_ok_bind] at h
              replace h := bind_ok_inv h
              obtain ⟨⟨b7, i7a, out7a⟩, -, h⟩ := h
              simp only [res_pure_eq, Res.ok.injEq, Prod.mk.injEq] at h
              exact h.1.symm
            · rename_i hnpa
              exact absurd (parseArray_at_bracket g text i out pArr i3 out3
                hlt hbracket harr) hnpa
          · have hne : ¬(i < text.length ∧
                charAt text i = codeOpeningBrace) := by
              rintro ⟨-, hcc⟩
              rw [hcc] at hquote
              exact absurd hquote (by decide)
            have hro := parseObject_not_brace g text i out _ hne hobj
            injection hro with hb2 hro
            injection hro with hi2 ho2
            subst i2
            subst out2
            replace h := bind_ok_inv h
            obtain ⟨⟨pArr, i3, out3⟩, harr, h⟩ := h
            simp only [] at h
            have hneb : charAt text i ≠ codeOpeningBracket := by
              intro hcc
              rw [hcc] at hquote
              exact absurd hquote (by decide)
            have hra := parseArray_not_bracket g text i out _ hlt hneb harr
            injection hra with hb3 hra
            injection hra with hi3 ho3
            subst i3
            subst out3
            split at h
            · rename_i hpt
              rw [hb3] at hpt
              exact Bool.noConfusion hpt
            · replace h := bind_ok_inv h
              obtain ⟨⟨sp, ia, outa⟩, hstr, h⟩ := h
              simp only [] at h
              split at h
              · simp only [res_pure_eq, res_ok_bind] at h
                replace h := bind_ok_inv h
                obtain ⟨⟨b7, i7a, out7a⟩, -, h⟩ := h
                simp only [res_pure_eq, Res.ok.injEq, Prod.mk.injEq] at h
                exact h.1.symm
              · rename_i hnsp
                exact absurd ((stringQuoteCluster g).2 text i out false (-1)
                  sp ia outa hlt hquote hstr) hnsp
          · have hne : ¬(i < text.length ∧
                charAt text i = codeOpeningBrace) := by
              rintro ⟨-, hcc⟩
              rw [hcc] at hdel
              exact absurd hdel (by decide)
            have hro := parseObject_not_brace g text i out _ hne hobj
            injection hro with hb2 hro
            injection hro with hi2 ho2
            subst i2
            subst out2
            replace h := bind_ok_inv h
            obtain ⟨⟨pArr, i3, out3⟩, harr, h⟩ := h
            simp only [] at h
            have hneb : charAt text i ≠ codeOpeningBracket := by
              intro hcc
              rw [hcc] at hdel
              exact absurd hdel (by decide)
            have hra := parseArray_not_bracket g text i out _ hlt hneb harr
            injection hra with hb3 hra
            injection hra with hi3 ho3
            subst i3
            subst out3
            split at h
            · rename_i hpt
              rw [hb3] at hpt
              exact Bool.noConfusion hpt
            · replace h := bind_ok_inv h
              obtain ⟨⟨sp, ia, outa⟩, hstr, h⟩ := h
              simp only [] at h
              split at h
              · simp only [res_pure_eq, res_ok_bind] at h
                replace h := bind_ok_inv h
                obtain ⟨⟨b7, i7a, out7a⟩, -, h⟩ := h
                simp only [res_pure_eq, Res.ok.injEq, Prod.mk.injEq] at h
                exact h.1.symm
              · rename_i hnsp
                have hspf : sp = false := by
                  revert hnsp
                  cases sp <;> simp
                rw [hspf] at hstr
                obtain ⟨hoA, hiA⟩ := parseString_decline g text i out false
                  (-1) ia outa hstr
                rcases hiA with hiA | ⟨-, hbsc, -⟩
                · subst ia
                  subst outa
                  rcases hnum : parseNumber text i out with ⟨np, ib, outb⟩
                  rw [hnum] at h
                  simp only [] at h
                  split at h
                  · simp only [res_pure_eq, res_ok_bind] at h
                    replace h := bind_ok_inv h
                    obtain ⟨⟨b7, i7a, out7a⟩, -, h⟩ := h
                    simp only [res_pure_eq, Res.ok.injEq, Prod.mk.injEq]
                      at h
                    exact h.1.symm
                  · rename_i hnnp
                    have hnpf : np = false := by
                      revert hnnp
                      cases np <;> simp
                    rw [hnpf] at hnum
                    obtain ⟨hib, hob⟩ := parseNumber_decline text i out ib
                      outb hnum
                    subst ib
                    subst outb
                    rcases hkw : parseKeywords text i out with
                      ⟨kp, icc, outc⟩
                    rw [hkw] at h
                    simp only [] at h
                    split at h
                    · simp only [res_pure_eq, res_ok_bind] at h
                      replace h := bind_ok_inv h
                      obtain ⟨⟨b7, i7a, out7a⟩, -, h⟩ := h
                      simp only [res_pure_eq, Res.ok.injEq, Prod.mk.injEq]
                        at h
                      exact h.1.symm
                    · rename_i hnkp
                      have hkpf : kp = false := by
                        revert hnkp
                        cases kp <;> simp
                      rw [hkpf] at hkw
                      obtain ⟨hic, hoc⟩ := parseKeywords_decline text i out
                        icc outc hkw
                      subst icc
                      subst outc
                      replace h := bind_ok_inv h
                      obtain ⟨⟨up, idv, outd⟩, hunq, h⟩ := h
                      simp only [] at h
                      split at h
                      · simp only [res_pure_eq, res_ok_bind] at h
                        replace h := bind_ok_inv h
                        obtain ⟨⟨b7, i7a, out7a⟩, -, h⟩ := h
                        simp only [res_pure_eq, Res.ok.injEq,
                          Prod.mk.injEq] at h
                        exact h.1.symm
                      · rename_i hnup
                        exact absurd (parseUnquoted_plain_true g text i out
                          up idv outd hlt hdel hq hunq) hnup
                · exact absurd hbsc hnb
    · intro text i out init i' out' h
      cases f with
      | zero => exact Res.noConfusion h
      | succ g =>
        rw [objLoop.eq_def] at h
        dsimp only [] at h
        split at h
        · rcases hoc : objComma text i out init with ⟨i1, out1⟩
          rw [hoc] at h
          simp only [] at h
          replace h := bind_ok_inv h
          obtain ⟨⟨b2, i2, out2⟩, -, h⟩ := h
          simp only [] at h
          replace h := bind_ok_inv h
          obtain ⟨⟨sp, i3, out3⟩, -, h⟩ := h
          simp only [] at h
          replace h := bind_ok_inv h
          obtain ⟨⟨pk, i4, out4⟩, -, h⟩ := h
          simp only [] at h
          split at h
          · split at h
            · simp only [res_pure_eq, Res.ok.injEq] at h
              exact ObjExit.noConfusion h
            · exact Res.noConfusion h
          · replace h := bind_ok_inv h
            obtain ⟨⟨b5, i5, out5⟩, -, h⟩ := h
            simp only [] at h
            rcases hpc : parseCharacter text i5 out5 codeColon with
              ⟨pc, i6, out6⟩
            rw [hpc] at h
            simp only [] at h
            replace h := bind_ok_inv h
            obtain ⟨out7, hcol, h⟩ := h
            replace h := bind_ok_inv h
            obtain ⟨⟨pv, i7, out8⟩, hpv, h⟩ := h
            simp only [] at h
            split at h
            · split at h
              · exact (ih g (by omega)).2 text i7 _ false i' out' h
              · rename_i hnpv hng
                have hpcf : pc = false := by
                  revert hng
                  cases pc <;> simp
                have hi6 : i6 < text.length := by
                  by_contra hx
                  exact hng (by simp [Nat.le_of_not_lt hx])
                rw [hpcf] at hcol
                split at hcol
                · split at hcol
                  · rename_i hG
                    rcases hG with ⟨hl6, hsv6⟩ | htr
                    · have := (ih g (by omega)).1 text i6 out7 pv i7 out8
                        hl6 hsv6 hpv
                      rw [this] at hnpv
                      exact absurd hnpv (by simp)
                    · simp only [decide_eq_true_eq] at htr
                      omega
                  · exact Res.noConfusion hcol
                · rename_i hcond
                  exact hcond rfl
            · exact (ih g (by omega)).2 text i7 out8 false i' out' h
        · simp only [res_pure_eq, Res.ok.injEq] at h
          exact ObjExit.noConfusion h

/-- parseObject declines only with the state unchanged (away from a
brace it declines directly; at a brace it never declines, because the
member loop never exits through its decline branch). -/
theorem parseObject_decline (f : Nat) (text : List Char) (i : Nat)
    (out : GoStr) (i' : Nat) (out' : GoStr)
    (h : parseObject f text i out = .ok (false, i', out')) :
    i' = i ∧ out' = out := by
  by_cases hbr : i < text.length ∧ charAt text i = codeOpeningBrace
  · exfalso
    cases f with
    | zero => exact Res.noConfusion h
    | succ g =>
      rw [parseObject.eq_def] at h
      dsimp only [] at h
      rw [if_pos hbr] at h
      replace h := bind_ok_inv h
      obtain ⟨⟨b5, i5, out5⟩, -, h⟩ := h
      simp only [] at h
      rcases hsc : skipCharacter text i5 codeComma with ⟨sc, i6⟩
      rw [hsc] at h
      simp only [] at h
      split at h
      · replace h := bind_ok_inv h
        obtain ⟨⟨b6, i7, out7⟩, -, h⟩ := h
        simp only [res_pure_eq, res_ok_bind] at h
        replace h := bind_ok_inv h
        obtain ⟨r, hol, h⟩ := h
        cases r with
        | declinedValue i8 out8 =>
          exact (valueCluster g).2 text i7 out7 true i8 out8 hol
        | done i8 out8 =>
          simp only [] at h
          split at h
          · simp only [res_pure_eq, Res.ok.injEq, Prod.mk.injEq] at h
            exact Bool.noConfusion h.1
          · simp only [res_pure_eq, Res.ok.injEq, Prod.mk.injEq] at h
            exact Bool.noConfusion h.1
      · simp only [res_pure_eq, res_ok_bind] at h
        replace h := bind_ok_inv h
        obtain ⟨r, hol, h⟩ := h
        cases r with
        | declinedValue i8 out8 =>
          exact (valueCluster g).2 text _ _ true i8 out8 hol
        | done i8 out8 =>
          simp only [] at h
          split at h
          · simp only [res_pure_eq, Res.ok.injEq, Prod.mk.injEq] at h
            exact Bool.noConfusion h.1
          · simp only [res_pure_eq, Res.ok.injEq, Prod.mk.injEq] at h
            exact Bool.noConfusion h.1
  · have hro := parseObject_not_brace f text i out _ hbr h
    injection hro with hb hro
    injection hro with hi ho
    exact ⟨hi, ho⟩

/-- Claim C5: counterexample to the claim as stated — `parseString` on
the two-character input backslash-`x` (a backslash not followed by a
quote) declines, yet returns cursor 1 instead of the pre-call cursor 0:
the backslash skip advanced the cursor before the function decided it
had no match. -/
theorem C5_counterexample_backslash_cursor :
    parseString 5 (("\\x").toList) 0 [] false (-1) = .ok (false, 1, []) ∧
    (1 : Nat) ≠ 0 := by
  constructor
  · decide
  · decide

/-- Claim C5 (amended): every sub-parser that declines a match leaves
the cursor and the output buffer unchanged, with one exception —
`parseString`, which declines either with the state unchanged or, when
the character at the cursor is a backslash not followed by a quote, with
the cursor advanced exactly one position past the backslash while the
output is unchanged. -/
theorem C5_subparser_decline_state (f : Nat) (text : List Char) (i : Nat)
    (out : GoStr) (sd isKey : Bool) (si : Int) (i' : Nat)
    (out' : GoStr) :
    (parseObject f text i out = .ok (false, i', out') →
      i' = i ∧ out' = out) ∧
    (parseArray f text i out = .ok (false, i', out') →
      i' = i ∧ out' = out) ∧
    (parseNumber text i out = (false, i', out') → i' = i ∧ out' = out) ∧
    (parseKeywords text i out = (false, i', out') →
      i' = i ∧ out' = out) ∧
    (parseRegex text i out = (false, i', out') → i' = i ∧ out' = out) ∧
    (parseUnquotedStringWithMode f text i out isKey =
      .ok (false, i', out') → i' = i ∧ out' = out) ∧
    (parseString f text i out sd si = .ok (false, i', out') →
      out' = out ∧ (i' = i ∨ (i' = i + 1 ∧
        charAt text i = codeBackslash ∧
        ¬(i + 1 < text.length ∧ isQuote (charAt text (i+1)) = true)))) :=
  ⟨parseObject_decline f text i out i' out',
   parseArray_decline f text i out i' out',
   parseNumber_decline text i out i' out',
   parseKeywords_decline text i out i' out',
   parseRegex_decline text i out i' out',
   parseUnquoted_decline f text i out isKey i' out',
   parseString_decline f text i out sd si i' out'⟩

/-- Witness for C5: two concrete declining runs — `parseNumber` on `x`
(state unchanged) and `parseString` on backslash-`x` (cursor moves one
past the backslash) — discharging the hypotheses of the amended
theorem at concrete inputs. -/
theorem C5_witness :
    (parseNumber (("x").toList) 0 [] = (false, 0, []) ∧
      (0 : Nat) = 0 ∧ ([] : GoStr) = []) ∧
    (parseString 5 (("\\x").toList) 0 [] false (-1) =
      .ok (false, 1, []) ∧
      ([] : GoStr) = [] ∧ ((1 : Nat) = 0 ∨ ((1 : Nat) = 0 + 1 ∧
        charAt (("\\x").toList) 0 = codeBackslash ∧
        ¬(0 + 1 < (("\\x").toList).length ∧
          isQuote (charAt (("\\x").toList) (0+1)) = true)))) :=
  ⟨⟨by decide, (C5_subparser_decline_state 5 (("x").toList) 0 [] false
      false (-1) 0 []).2.2.1 (by decide)⟩,
   ⟨by decide, (C5_subparser_decline_state 5 (("\\x").toList) 0 [] false
      false (-1) 1 []).2.2.2.2.2.2 (by decide)⟩⟩

end JsonRepair
